import Mathlib

/-!
Verification of the trie-based URL classifier (Go sources: classifier.go,
segment.go, metrics.go) against its natural-language specification.

Modelling conventions:
* Go strings are modelled as lists of characters (Str).
* Go maps are modelled as association lists in insertion order; Go map
  iteration is nondeterministic, the association-list order is one
  admissible deterministic refinement of it.
* The mutable pointer graph of Segment nodes is modelled as an explicit
  heap: a store from natural-number ids to node records plus a fresh-id
  counter.  Heap.alloc models the Go allocation NewSegment, Heap.set
  models a field write through a pointer.  This keeps the aliasing
  behaviour of collapseChildren (which shares grandchild pointers and
  orphans the in-flight child) exactly as in the source.
* Go int counters are modelled as Nat (they are only incremented), and
  the float64 CardinalityThreshold as a rational number.  Go compares
  float64 quotients: the comparison  len/total >= threshold  is modelled
  by the cross-multiplied exact form  (len : Q) >= threshold * total,
  which also reproduces Go's behaviour on a zero denominator (the float
  quotient +Inf compares greater-or-equal to every finite threshold).
-/

/-- Go strings as lists of characters. -/
abbrev Str := List Char

/-- The character class [0-9] of the Go regexes (ASCII decimal digit). -/
def isDig (c : Char) : Bool := '0' ≤ c && c ≤ '9'

/-- The character class [a-f]. -/
def isHexLetter (c : Char) : Bool := 'a' ≤ c && c ≤ 'f'

/-- The character class [0-9a-f] of the uuid and hash regexes. -/
def isHexLower (c : Char) : Bool := isDig c || isHexLetter c

/-- The character class [a-z]. -/
def isLowerAlpha (c : Char) : Bool := 'a' ≤ c && c ≤ 'z'

/-- The character class [A-Z]. -/
def isUpperAlpha (c : Char) : Bool := 'A' ≤ c && c ≤ 'Z'

/-- The character class [a-z0-9] of the slug regexes. -/
def isLowerAlnum (c : Char) : Bool := isLowerAlpha c || isDig c

/-- The character class [a-zA-Z0-9] of the payment-prefix regex. -/
def isAlnumAny (c : Char) : Bool := isLowerAlpha c || isUpperAlpha c || isDig c

/-- Split a character list at every occurrence of the separator, keeping
empty pieces, as Go strings.Split does for a one-character separator.
Always returns a non-empty list of pieces. -/
def splitOnChar (sep : Char) : Str → List Str
  | [] => [[]]
  | c :: rest =>
    if c = sep then [] :: splitOnChar sep rest
    else
      match splitOnChar sep rest with
      | [] => [[c]]
      | p :: ps => (c :: p) :: ps

/-- Numeric value of a list of decimal digit characters (most significant
first), as accumulated by Go strconv.ParseInt on the digit part. -/
def digitsVal (s : Str) : Nat := s.foldl (fun acc c => 10 * acc + (c.toNat - 48)) 0

/-- Parse a non-empty all-digit string, Go-style (no sign handling here). -/
def parseDigits (s : Str) : Option Nat :=
  if s ≠ [] && s.all isDig then some (digitsVal s) else none

/-- Largest int64, the bitSize=64 bound of strconv.ParseInt. -/
def int64Max : Nat := 2 ^ 63 - 1

/-- Model of Go strconv.ParseInt(value, 10, 64): an optional single sign
followed by at least one decimal digit; values outside the int64 range
make ParseInt return an error (modelled as none), so the callers'
err == nil branches are skipped. -/
def parseInt10 (s : Str) : Option Int :=
  match s with
  | [] => none
  | c :: rest =>
    if c = '+' then
      (parseDigits rest).bind (fun v => if v ≤ int64Max then some (v : Int) else none)
    else if c = '-' then
      (parseDigits rest).bind (fun v => if v ≤ 2 ^ 63 then some (-(v : Int)) else none)
    else
      (parseDigits s).bind (fun v => if v ≤ int64Max then some (v : Int) else none)

/-- The regex ^[0-9a-f]-groups of shape 8-4-4-4-12: splitting on the dash
must give exactly five all-hex pieces of those lengths (the pieces contain
no dash, so this is exactly the anchored regex). -/
def matchUUID (s : Str) : Bool :=
  match splitOnChar '-' s with
  | [a, b, c, d, e] =>
    a.length == 8 && b.length == 4 && c.length == 4 && d.length == 4 &&
    e.length == 12 && (a ++ b ++ c ++ d ++ e).all isHexLower
  | _ => false

/-- The regex for an ISO date, three all-digit dash-separated groups of
lengths 4, 2, 2. -/
def matchDate (s : Str) : Bool :=
  match splitOnChar '-' s with
  | [y, m, d] =>
    y.length == 4 && m.length == 2 && d.length == 2 && (y ++ m ++ d).all isDig
  | _ => false

/-- The regex for a timestamp: an all-digit string of length at least 10. -/
def matchTimestamp (s : Str) : Bool :=
  decide (10 ≤ s.length) && s.all isDig

/-- The regex for a hash: an all-lower-hex string of length at least 24. -/
def matchHash (s : Str) : Bool :=
  decide (24 ≤ s.length) && s.all isHexLower

/-- The alternatives of the payment/identity id regex, i.e. the heads
cus, sub, prod, price, pm, pi, ch, in, tok, src, ba, card. -/
def stripeHeads : List Str :=
  [['c','u','s'], ['s','u','b'], ['p','r','o','d'], ['p','r','i','c','e'],
   ['p','m'], ['p','i'], ['c','h'], ['i','n'], ['t','o','k'],
   ['s','r','c'], ['b','a'], ['c','a','r','d']]

/-- Does the pattern list occur at the start of the string? -/
def strStartsWith : Str → Str → Bool
  | [], _ => true
  | _, [] => false
  | p :: ps, c :: cs => p = c && strStartsWith ps cs

/-- The regex: one of the known payment/identity heads, an underscore,
then at least one [a-zA-Z0-9] character, anchored on both sides. -/
def matchStripeId (s : Str) : Bool :=
  stripeHeads.any (fun p =>
    strStartsWith (p ++ ['_']) s &&
    (let rest := s.drop (p.length + 1)
     rest ≠ [] && rest.all isAlnumAny))

/-- The strict slug regex of looksLikeParameter: lowalnum group, dash,
a non-empty [a-z0-9-] middle, dash, digit group.  In terms of the
dash-split pieces: at least three pieces, the first non-empty lowalnum,
the last non-empty all-digit, all middle pieces lowalnum, and the middle
region non-empty (at least four pieces, or a non-empty single middle
piece); this is exactly the anchored regex with its backtracking
existential semantics. -/
def matchSlugStrict (s : Str) : Bool :=
  let parts := splitOnChar '-' s
  match parts with
  | first :: more =>
    decide (3 ≤ parts.length) &&
    first ≠ [] && first.all isLowerAlnum &&
    (match more.reverse with
     | last :: midRev =>
       last ≠ [] && last.all isDig &&
       midRev.all (fun p => p.all isLowerAlnum) &&
       (decide (4 ≤ parts.length) || midRev.any (fun p => p ≠ []))
     | [] => false)
  | [] => false

/-- The loose slug regex of classifyParameterType,
lowalnum groups joined by single dashes with an optional trailing digit
group.  Since digits are lowalnum characters, the anchored regex accepts
exactly the strings whose dash-split pieces are all non-empty and
lowalnum. -/
def matchSlugLoose (s : Str) : Bool :=
  (splitOnChar '-' s).all (fun p => p ≠ [] && p.all isLowerAlnum)

/-- classifier.go looksLikeParameter: the five shared shape rules, then
the numeric bands 100..1999, 2100..9999, >=100000 with an early false for
every other parseable integer, then the strict slug rule. -/
def looksLikeParameter (value : Str) : Bool :=
  if matchUUID value then true
  else if matchDate value then true
  else if matchTimestamp value then true
  else if matchHash value then true
  else if matchStripeId value then true
  else
    match parseInt10 value with
    | some num =>
      if 100 ≤ num ∧ num < 2000 then true
      else if 2100 ≤ num ∧ num < 10000 then true
      else if 100000 ≤ num then true
      else false
    | none =>
      matchSlugStrict value

/-- classifier.go classifyParameterType: fixed-precedence taxonomy.
Note the numeric branch does not return on a parseable value outside its
bands: control falls through to the slug rule. -/
def classifyParameterType (value : Str) : Str :=
  if matchUUID value then "uuid".toList
  else if matchDate value then "date".toList
  else if matchTimestamp value then "timestamp".toList
  else if matchHash value then "hash".toList
  else if matchStripeId value then "id".toList
  else if (match parseInt10 value with
           | some num => decide ((100 ≤ num ∧ num < 10000) ∨ 100000 ≤ num)
           | none => false) then "id".toList
  else if matchSlugLoose value then "slug".toList
  else "param".toList

/-- Lookup in an association list (first binding wins), modelling a Go
map read. -/
def alookup {β : Type} (k : Str) : List (Str × β) → Option β
  | [] => none
  | p :: rest => if p.1 = k then some p.2 else alookup k rest

/-- Write a binding: replace the first binding of the key in place, or
append a new binding at the end.  This is the insertion-order
deterministic refinement of a Go map write. -/
def aset {β : Type} (k : Str) (v : β) : List (Str × β) → List (Str × β)
  | [] => [(k, v)]
  | p :: rest => if p.1 = k then (k, v) :: rest else p :: aset k v rest

/-- values[k] += n, modelling the Go counter-map increment (a missing key
reads as zero). -/
def addValue (k : Str) (n : Nat) : List (Str × Nat) → List (Str × Nat)
  | [] => [(k, n)]
  | p :: rest => if p.1 = k then (p.1, p.2 + n) :: rest else p :: addValue k n rest

/-- Merge the second counter map into the first, key by key, as the
range loop  for v, cnt := range src coll dst[v] += cnt  does. -/
def mergeValues (dst src : List (Str × Nat)) : List (Str × Nat) :=
  src.foldl (fun acc p => addValue p.1 p.2 acc) dst

/-- Sum of the counts stored in a counter map. -/
def sumCounts (m : List (Str × Nat)) : Nat := (m.map (fun p => p.2)).sum

/-- The Segment struct of segment.go.  children and values are maps in
the source; child nodes are held by pointer, modelled as heap ids. -/
structure Segment where
  value : Str
  children : List (Str × Nat)
  isEnd : Bool
  values : List (Str × Nat)
  totalCount : Nat
  pruned : Bool
  uniqueCount : Nat
  collapsed : Bool
deriving Repr, DecidableEq

/-- segment.go NewSegment: fresh node with empty maps and cleared flags. -/
def NewSegment (v : Str) : Segment :=
  { value := v, children := [], isEnd := false, values := [],
    totalCount := 0, pruned := false, uniqueCount := 0, collapsed := false }

/-- Explicit heap of Segment nodes: store from ids to records plus a
fresh-id counter, modelling the Go pointer graph. -/
structure Heap where
  store : List (Nat × Segment)
  nextId : Nat
deriving Repr, DecidableEq

/-- Lookup of an id in the store (first binding wins). -/
def hlookup (k : Nat) : List (Nat × Segment) → Option Segment
  | [] => none
  | p :: rest => if p.1 = k then some p.2 else hlookup k rest

/-- Store write: replace in place or append. -/
def hset (k : Nat) (v : Segment) : List (Nat × Segment) → List (Nat × Segment)
  | [] => [(k, v)]
  | p :: rest => if p.1 = k then (k, v) :: rest else p :: hset k v rest

/-- Dereference a node pointer.  Ids outside the store read as a blank
segment; executions started from NewClassifier never dereference such
ids. -/
def Heap.get (h : Heap) (id : Nat) : Segment := (hlookup id h.store).getD (NewSegment [])

/-- Field write through a pointer. -/
def Heap.set (h : Heap) (id : Nat) (d : Segment) : Heap :=
  { h with store := hset id d h.store }

/-- Allocation of a fresh node, returning the heap and the new pointer. -/
def Heap.alloc (h : Heap) (d : Segment) : Heap × Nat :=
  ({ store := hset h.nextId d h.store, nextId := h.nextId + 1 }, h.nextId)

/-- The Config struct of classifier.go.  The int fields are modelled as
Nat (the spec constrains them to be non-negative) and the float64
threshold as a rational. -/
structure Config where
  CardinalityThreshold : ℚ
  MinSamples : Nat
  MinLearningCount : Nat
  MaxValuesPerNode : Nat
  PruneHighCardinality : Bool
deriving Repr, DecidableEq

/-- classifier.go DefaultConfig; the threshold 0.75 is the rational
three quarters, written as an explicit numerator/denominator pair so
that it evaluates under kernel reduction. -/
def DefaultConfig : Config :=
  { CardinalityThreshold := ⟨3, 4, by decide, by decide⟩, MinSamples := 2,
    MinLearningCount := 0, MaxValuesPerNode := 0, PruneHighCardinality := false }

/-- The segment key of the wildcard child. -/
def starKey : Str := "*".toList

/-- A position of the classification walk: either a pointer into the
owned trie or a transient virtual segment built during classification,
whose children may in turn be pointers or virtual segments.  In Go both
are values of the one Segment type; the split makes explicit that
virtual nodes never live in the heap. -/
inductive NodeView where
  | ref (id : Nat)
  | virt (value : Str) (children : List (Str × NodeView)) (isEnd : Bool)
      (values : List (Str × Nat)) (totalCount : Nat)

/-- The children of a walk position (heap children become pointers). -/
def childrenV (h : Heap) : NodeView → List (Str × NodeView)
  | .ref id => (h.get id).children.map (fun p => (p.1, NodeView.ref p.2))
  | .virt _ cs _ _ _ => cs

/-- The totalCount of a walk position. -/
def totalCountV (h : Heap) : NodeView → Nat
  | .ref id => (h.get id).totalCount
  | .virt _ _ _ _ t => t

/-- The values map of a walk position. -/
def valuesV (h : Heap) : NodeView → List (Str × Nat)
  | .ref id => (h.get id).values
  | .virt _ _ _ vs _ => vs

/-- The collapsed flag of a walk position (virtual segments are created
with the zero value of the flag). -/
def collapsedV (h : Heap) : NodeView → Bool
  | .ref id => (h.get id).collapsed
  | .virt _ _ _ _ _ => false

/-- classifier.go hasHighVariability.  The single-child rule fires when
the only child has been traversed MinSamples times and its key looks
like a parameter; otherwise at least minChildren children (3, or 2 for a
threshold below 0.75) must satisfy the cardinality-ratio test.  The
float comparisons  threshold < 0.75  and  len/total >= threshold  are
modelled exactly on the rational threshold, written on its numerator and
denominator (equivalent cross-multiplied forms, proved so below) to keep
them executable under kernel reduction. -/
def hasHighVariability (cfg : Config) (h : Heap) (node : NodeView) : Bool :=
  let cs := childrenV h node
  (match cs with
   | [(childValue, child)] =>
     decide (cfg.MinSamples ≤ totalCountV h child) && looksLikeParameter childValue
   | _ => false) ||
  (let minChildren :=
     if 4 * cfg.CardinalityThreshold.num < 3 * (cfg.CardinalityThreshold.den : Int)
     then 2 else 3
   decide (minChildren ≤ cs.length) &&
   (let totalTraversals := (cs.map (fun p => totalCountV h p.2)).sum
    decide (cfg.CardinalityThreshold.num * (totalTraversals : Int) ≤
      (cs.length : Int) * (cfg.CardinalityThreshold.den : Int))))

/-- classifier.go childrenLookDynamic: at least half of a non-empty
children set must look like dynamic parameters (the float comparison
dynamicCount/len >= 0.5 is modelled cross-multiplied). -/
def childrenLookDynamic (h : Heap) (node : NodeView) : Bool :=
  let cs := childrenV h node
  if cs.length = 0 then false
  else
    let dynamicCount := (cs.filter (fun p => looksLikeParameter p.1)).length
    decide (cs.length ≤ 2 * dynamicCount)

/-- One step of collapseChildren's merge loop: fold one child of the
node being collapsed into the wildcard.  Sums the child's totalCount and
isEnd into the wildcard; adopts each grandchild pointer whose name is
new, and on a name collision merges the grandchild's totalCount and
values into the already-adopted node through its pointer. -/
def mergeChildIntoWildcard (h : Heap) (wid : Nat) (cid : Nat) : Heap :=
  let child := h.get cid
  let w := h.get wid
  let h1 := h.set wid
    { w with totalCount := w.totalCount + child.totalCount,
             isEnd := w.isEnd || child.isEnd }
  child.children.foldl
    (fun hAcc g =>
      let wNow := hAcc.get wid
      match alookup g.1 wNow.children with
      | none => hAcc.set wid { wNow with children := aset g.1 g.2 wNow.children }
      | some tid =>
        let t := hAcc.get tid
        let gch := hAcc.get g.2
        hAcc.set tid
          { t with totalCount := t.totalCount + gch.totalCount,
                   values := mergeValues t.values gch.values })
    h1

/-- The fresh wildcard segment that collapseChildren allocates: a new
star-keyed segment already marked pruned. -/
def wildcardSeg : Segment := { NewSegment starKey with pruned := true }

/-- classifier.go collapseChildren: replace all children of a node by a
single pruned wildcard child carrying the summed statistics and the
union of the grandchildren, then mark the node collapsed.  No-op on an
already collapsed or childless node. -/
def collapseChildren (h : Heap) (nodeId : Nat) : Heap :=
  let node := h.get nodeId
  if node.collapsed || node.children.length = 0 then h
  else
    let a := h.alloc wildcardSeg
    let h2 := node.children.foldl (fun hAcc p => mergeChildIntoWildcard hAcc a.2 p.2) a.1
    h2.set nodeId
      { h2.get nodeId with children := [(starKey, a.2)], collapsed := true }

/-- The child-routing step of the insert walk (classifier.go lines
103-116): under a collapsed node route through the wildcard child,
creating it if absent; otherwise create-or-reuse the literal child. -/
def routeChild (h : Heap) (nodeId : Nat) (part : Str) : Heap × Nat :=
  let node := h.get nodeId
  if node.collapsed then
    match alookup starKey node.children with
    | some cid => (h, cid)
    | none =>
      let a := h.alloc (NewSegment starKey)
      (a.1.set nodeId { node with children := aset starKey a.2 node.children }, a.2)
  else
    match alookup part node.children with
    | some cid => (h, cid)
    | none =>
      let a := h.alloc (NewSegment part)
      (a.1.set nodeId { node with children := aset part a.2 node.children }, a.2)

/-- The statistics step of the insert walk (classifier.go lines
118-125): bump the child's totalCount, and record the literal in its
values map unless the map is capped and the literal is new. -/
def bumpChild (cfg : Config) (h : Heap) (childId : Nat) (part : Str) : Heap :=
  let child := h.get childId
  let child1 := { child with totalCount := child.totalCount + 1 }
  let child2 :=
    if cfg.MaxValuesPerNode = 0 || child1.values.length < cfg.MaxValuesPerNode then
      { child1 with values := addValue part 1 child1.values }
    else if (alookup part child1.values).isSome then
      { child1 with values := addValue part 1 child1.values }
    else child1
  h.set childId child2

/-- The memory-bounding step of the insert walk (classifier.go lines
127-134): collapse the current node's children when bounding is on, the
node is not yet collapsed, its child count has reached the value cap,
and the children are highly variable and look dynamic. -/
def maybeCollapse (cfg : Config) (h : Heap) (nodeId : Nat) : Heap :=
  let nd := h.get nodeId
  if cfg.PruneHighCardinality && !nd.collapsed &&
      decide (cfg.MaxValuesPerNode ≤ nd.children.length) &&
      hasHighVariability cfg h (NodeView.ref nodeId) &&
      childrenLookDynamic h (NodeView.ref nodeId) then
    collapseChildren h nodeId
  else h

/-- One iteration of the insert walk of classifier.go (lines 102-137):
route, bump, possibly collapse, and hand back the child pointer the Go
loop continues from (the child itself even when the collapse just
orphaned it). -/
def insertPartStep (cfg : Config) (h : Heap) (nodeId : Nat) (part : Str) : Heap × Nat :=
  let r := routeChild h nodeId part
  let h2 := bumpChild cfg r.1 r.2 part
  (maybeCollapse cfg h2 nodeId, r.2)

/-- The insert walk over the whole segment list. -/
def insertParts (cfg : Config) : Heap → Nat → List Str → Heap × Nat
  | h, id, [] => (h, id)
  | h, id, part :: rest =>
    let s := insertPartStep cfg h id part
    insertParts cfg s.1 s.2 rest

/-- classifier.go splitURL: strip one leading slash, then split on the
slash; the empty remainder yields no segments. -/
def splitURL (url : Str) : List Str :=
  let u := match url with
           | c :: rest => if c = '/' then rest else url
           | [] => url
  if u = [] then [] else splitOnChar '/' u

/-- classifier.go insert: no-op on the empty string, otherwise walk the
split segments from the given root and mark the final node (possibly an
orphan, after a collapse) as an end node. -/
def insertURL (cfg : Config) (h : Heap) (rootId : Nat) (url : Str) : Heap :=
  if url = [] then h
  else
    let s := insertParts cfg h rootId (splitURL url)
    s.1.set s.2 { s.1.get s.2 with isEnd := true }

/-- Group the children of the given segments by name, keeping for each
name all the contributing children in traversal order (the childrenByName
map of mergeChildren). -/
def groupChildrenByName (h : Heap) (segments : List NodeView) : List (Str × List NodeView) :=
  segments.foldl
    (fun acc seg =>
      (childrenV h seg).foldl
        (fun acc2 p =>
          match alookup p.1 acc2 with
          | none => acc2 ++ [(p.1, [p.2])]
          | some grp => aset p.1 (grp ++ [p.2]) acc2)
        acc)
    []

/-- Build the merged virtual child of mergeChildren for one name: keep
the first grandchild seen for each grandchild name (not a deep merge),
and sum the values maps and totalCounts of all contributors. -/
def mergeGroup (h : Heap) (name : Str) (nodes : List NodeView) : NodeView :=
  let folded := nodes.foldl
    (fun (acc : List (Str × NodeView) × List (Str × Nat) × Nat) childNode =>
      let cs := (childrenV h childNode).foldl
        (fun cs g => match alookup g.1 cs with
                     | none => cs ++ [g]
                     | some _ => cs)
        acc.1
      let vs := mergeValues acc.2.1 (valuesV h childNode)
      (cs, vs, acc.2.2 + totalCountV h childNode))
    ([], [], 0)
  NodeView.virt name folded.1 false folded.2.1 folded.2.2

/-- classifier.go mergeChildren: nil input gives nil, otherwise the
by-name grouping is merged name by name into virtual segments. -/
def mergeChildren (h : Heap) (segments : List NodeView) : List (Str × NodeView) :=
  if segments.isEmpty then []
  else (groupChildrenByName h segments).map (fun p => (p.1, mergeGroup h p.1 p.2))

/-- classifier.go findCommonChildrenAcrossAllSiblings: merge all the
children of the node into one virtual children map. -/
def findCommonChildren (h : Heap) (node : NodeView) : List (Str × NodeView) :=
  let cs := childrenV h node
  if cs.isEmpty then []
  else mergeChildren h (cs.map (fun p => p.2))

/-- A typed placeholder segment: an opening brace, the parameter type,
a closing brace. -/
def braced (t : Str) : Str := Char.ofNat 123 :: t ++ [Char.ofNat 125]

/-- The classification walk of Classify (classifier.go lines 221-295):
under a collapsed node always emit a typed placeholder and continue
through the wildcard child when it exists; at a known literal emit the
literal, or a placeholder when the position is highly variable,
continuing into the sibling-merge view when it is non-empty; at an
unknown literal either placeholder out the rest of the path (variable
position) or echo the rest literally. -/
def classifyLoop (cfg : Config) (h : Heap) : NodeView → List Str → List Str
  | _, [] => []
  | node, part :: rest =>
    if collapsedV h node then
      let next := match alookup starKey (childrenV h node) with
                  | some w => w
                  | none => node
      braced (classifyParameterType part) :: classifyLoop cfg h next rest
    else
      match alookup part (childrenV h node) with
      | some child =>
        if hasHighVariability cfg h node then
          let common := findCommonChildren h node
          if !common.isEmpty then
            braced (classifyParameterType part) ::
              classifyLoop cfg h (NodeView.virt [] common false [] 0) rest
          else
            braced (classifyParameterType part) :: classifyLoop cfg h child rest
        else
          part :: classifyLoop cfg h child rest
      | none =>
        if hasHighVariability cfg h node then
          let common := findCommonChildren h node
          if !common.isEmpty then
            braced (classifyParameterType part) ::
              classifyLoop cfg h (NodeView.virt [] common false [] 0) rest
          else
            braced (classifyParameterType part) ::
              rest.map (fun p => braced (classifyParameterType p))
        else
          part :: rest

/-- The Classifier struct: configuration, the owned trie (root pointer
into the heap) and the running learned counter. -/
structure Classifier where
  config : Config
  heap : Heap
  rootId : Nat
  learnedCount : Nat
deriving Repr, DecidableEq

/-- classifier.go NewClassifier: a fresh heap holding only the root
segment (whose value is the empty string). -/
def NewClassifier (cfg : Config) : Classifier :=
  let a := Heap.alloc { store := [], nextId := 0 } (NewSegment [])
  { config := cfg, heap := a.1, rootId := a.2, learnedCount := 0 }

/-- classifier.go Learn: insert every url in order, bumping the learned
counter once per url (also for urls that insert ignores). -/
def Learn (c : Classifier) (urls : List Str) : Classifier :=
  urls.foldl
    (fun acc url =>
      { acc with heap := insertURL acc.config acc.heap acc.rootId url,
                 learnedCount := acc.learnedCount + 1 })
    c

/-- The outcome of Classify: a pattern, or the InsufficientDataError
carrying the current learned count.  The error struct itself is declared
outside the provided sources (its use in classifier.go line 210 and the
README fix its shape: it carries the count). -/
inductive ClassifyResult where
  | ok (pattern : Str)
  | insufficientData (count : Nat)
deriving Repr, DecidableEq

/-- classifier.go Classify: the empty url returns the empty pattern at
once; otherwise the url is always inserted first and the learned counter
bumped; while the counter is within a positive MinLearningCount the
insufficient-data error carrying the counter is returned; otherwise the
read-only classification walk renders the pattern (the no-segment
remainder yields the bare slash). -/
def Classify (c : Classifier) (url : Str) : Classifier × ClassifyResult :=
  if url = [] then (c, .ok [])
  else
    let c1 : Classifier :=
      { c with heap := insertURL c.config c.heap c.rootId url,
               learnedCount := c.learnedCount + 1 }
    let count := c1.learnedCount
    if 0 < c.config.MinLearningCount ∧ count ≤ c.config.MinLearningCount then
      (c1, .insufficientData count)
    else
      let parts := splitURL url
      if parts = [] then (c1, .ok ['/'])
      else
        (c1, .ok ('/' :: List.intercalate ['/'] (classifyLoop c1.config c1.heap (NodeView.ref c1.rootId) parts)))

/-- A public operation on a classifier, for quantifying over call
sequences. -/
inductive Op where
  | learn (urls : List Str)
  | classify (url : Str)

/-- Apply one public operation (a classify call's state effect). -/
def applyOp (c : Classifier) : Op → Classifier
  | .learn urls => Learn c urls
  | .classify url => (Classify c url).1

/-- Run a sequence of public operations. -/
def runOps (c : Classifier) (ops : List Op) : Classifier := ops.foldl applyOp c

/-- Fuel-bounded reachable-node count from a pointer, the countNodes
walk of metrics.go (fuel larger than the trie depth counts every
reachable node). -/
def countNodesF : Nat → Heap → Nat → Nat
  | 0, _, _ => 0
  | fuel + 1, h, id =>
    1 + (((h.get id).children.map (fun p => countNodesF fuel h p.2)).sum)

/-- Follow a list of child names from a node pointer (0 when a name is
missing; used only to address concrete nodes in concrete states). -/
def nodeAtPath (h : Heap) : Nat → List Str → Nat
  | id, [] => id
  | id, name :: rest => nodeAtPath h ((alookup name (h.get id).children).getD 0) rest

/-! Helper lemmas about the string predicates. -/

theorem splitOn_no_sep (sep : Char) (l : Str) (h : ∀ c ∈ l, c ≠ sep) :
    splitOnChar sep l = [l] := by
  induction l with
  | nil => rfl
  | cons c rest ih =>
    have hc : c ≠ sep := h c (List.mem_cons_self c rest)
    have hr : splitOnChar sep rest = [rest] :=
      ih (fun x hx => h x (List.mem_cons_of_mem c hx))
    simp [splitOnChar, hc, hr]

theorem isDig_ne_dash {c : Char} (h : isDig c = true) : c ≠ '-' := by
  intro he
  subst he
  exact absurd h (by decide)

theorem all_isDig_ne_dash {l : Str} (h : l.all isDig = true) : ∀ c ∈ l, c ≠ '-' :=
  fun c hc => isDig_ne_dash (List.all_eq_true.mp h c hc)

theorem parseDigits_some {s : Str} {v : Nat} (h : parseDigits s = some v) :
    s ≠ [] ∧ s.all isDig = true ∧ v = digitsVal s := by
  unfold parseDigits at h
  split at h
  · rename_i hcond
    simp only [Bool.and_eq_true, ne_eq, decide_not] at hcond
    refine ⟨by simpa using hcond.1, hcond.2, ?_⟩
    exact (Option.some.inj h).symm
  · exact absurd h (by simp)

theorem parseInt10_shape {s : Str} {n : Int} (h : parseInt10 s = some n) :
    (s ≠ [] ∧ s.all isDig = true) ∨
    (∃ c rest, s = c :: rest ∧ (c = '+' ∨ c = '-') ∧ rest ≠ [] ∧ rest.all isDig = true) := by
  match s with
  | [] => exact absurd h (by simp [parseInt10])
  | c :: rest =>
    unfold parseInt10 at h
    by_cases h1 : c = '+'
    · simp only [h1, if_pos rfl] at h
      match hp : parseDigits rest with
      | none => rw [hp] at h; exact absurd h (by simp)
      | some v =>
        obtain ⟨hne, hall, _⟩ := parseDigits_some hp
        exact Or.inr ⟨c, rest, rfl, Or.inl h1, hne, hall⟩
    · by_cases h2 : c = '-'
      · simp only [h1, h2, if_neg, if_pos rfl, if_false] at h
        match hp : parseDigits rest with
        | none => rw [hp] at h; exact absurd h (by simp)
        | some v =>
          obtain ⟨hne, hall, _⟩ := parseDigits_some hp
          exact Or.inr ⟨c, rest, rfl, Or.inr h2, hne, hall⟩
      · simp only [h1, h2, if_false] at h
        match hp : parseDigits (c :: rest) with
        | none => rw [hp] at h; exact absurd h (by simp)
        | some v =>
          obtain ⟨hne, hall, _⟩ := parseDigits_some hp
          exact Or.inl ⟨hne, hall⟩

theorem splitDash_of_parse {s : Str} {n : Int} (h : parseInt10 s = some n) :
    splitOnChar '-' s = [s] ∨ (∃ rest, s = '-' :: rest ∧ splitOnChar '-' s = [[], rest]) := by
  rcases parseInt10_shape h with ⟨_, hall⟩ | ⟨c, rest, hs, hsign, _, hall⟩
  · exact Or.inl (splitOn_no_sep '-' s (all_isDig_ne_dash hall))
  · rcases hsign with h1 | h2
    · refine Or.inl (splitOn_no_sep '-' s ?_)
      subst hs h1
      intro x hx
      rcases List.mem_cons.mp hx with hx1 | hx2
      · subst hx1; decide
      · exact all_isDig_ne_dash hall x hx2
    · subst hs h2
      refine Or.inr ⟨rest, rfl, ?_⟩
      have hr : splitOnChar '-' rest = [rest] :=
        splitOn_no_sep '-' rest (all_isDig_ne_dash hall)
      simp [splitOnChar, hr]

theorem matchUUID_false_of_parse {s : Str} {n : Int} (h : parseInt10 s = some n) :
    matchUUID s = false := by
  rcases splitDash_of_parse h with hsp | ⟨rest, _, hsp⟩ <;> simp [matchUUID, hsp]

theorem matchDate_false_of_parse {s : Str} {n : Int} (h : parseInt10 s = some n) :
    matchDate s = false := by
  rcases splitDash_of_parse h with hsp | ⟨rest, _, hsp⟩ <;> simp [matchDate, hsp]

theorem strStartsWith_head {a : Char} {ps s : Str} (h : strStartsWith (a :: ps) s = true) :
    ∃ t, s = a :: t := by
  match s with
  | [] => exact absurd h (by simp [strStartsWith])
  | c :: cs =>
    simp only [strStartsWith, Bool.and_eq_true, decide_eq_true_eq] at h
    exact ⟨cs, by rw [h.1]⟩

theorem matchStripeId_head {s : Str} (h : matchStripeId s = true) :
    ∃ c t, s = c :: t ∧ isLowerAlpha c = true := by
  simp only [matchStripeId, List.any_eq_true] at h
  obtain ⟨p, hp, hpred⟩ := h
  have hsw : strStartsWith (p ++ ['_']) s = true := by
    rcases Bool.and_eq_true_iff.mp hpred with ⟨h1, _⟩
    exact h1
  fin_cases hp <;>
    · obtain ⟨t, ht⟩ := strStartsWith_head hsw
      exact ⟨_, t, ht, by decide⟩

theorem isLowerAlpha_false_of_parse_head {c : Char}
    (hc : isDig c = true ∨ c = '+' ∨ c = '-') : isLowerAlpha c = false := by
  rcases hc with hd | h1 | h2
  · simp only [isDig, Bool.and_eq_true, decide_eq_true_eq] at hd
    by_contra hl
    rw [Bool.not_eq_false] at hl
    simp only [isLowerAlpha, Bool.and_eq_true, decide_eq_true_eq] at hl
    exact absurd (le_trans hl.1 hd.2) (by decide)
  · subst h1; decide
  · subst h2; decide

theorem matchStripeId_false_of_parse {s : Str} {n : Int} (h : parseInt10 s = some n) :
    matchStripeId s = false := by
  cases hb : matchStripeId s with
  | false => rfl
  | true =>
    obtain ⟨c, t, hs, hlow⟩ := matchStripeId_head hb
    have hc : isDig c = true ∨ c = '+' ∨ c = '-' := by
      rcases parseInt10_shape h with ⟨_, hall⟩ | ⟨c2, rest, hs2, hsign, _, _⟩
      · subst hs
        exact Or.inl (List.all_eq_true.mp hall c (List.mem_cons_self c t))
      · rw [hs] at hs2
        have hcc : c = c2 := by injection hs2
        rcases hsign with h1 | h2
        · exact Or.inr (Or.inl (hcc.trans h1))
        · exact Or.inr (Or.inr (hcc.trans h2))
    rw [isLowerAlpha_false_of_parse_head hc] at hlow
    exact absurd hlow (by simp)

theorem matchHash_false_of_parse {s : Str} {n : Int} (h : parseInt10 s = some n)
    (hts : matchTimestamp s = false) : matchHash s = false := by
  rcases parseInt10_shape h with ⟨_, hall⟩ | ⟨c, rest, hs, hsign, _, _⟩
  · cases hb : matchHash s with
    | false => rfl
    | true =>
      simp only [matchHash, Bool.and_eq_true, decide_eq_true_eq] at hb
      have : matchTimestamp s = true := by
        simp only [matchTimestamp, Bool.and_eq_true, decide_eq_true_eq]
        exact ⟨by omega, hall⟩
      rw [this] at hts
      exact absurd hts (by simp)
  · cases hb : matchHash s with
    | false => rfl
    | true =>
      simp only [matchHash, Bool.and_eq_true, decide_eq_true_eq] at hb
      have hmem : c ∈ s := by rw [hs]; exact List.mem_cons_self c rest
      have := List.all_eq_true.mp hb.2 c hmem
      rcases hsign with h1 | h2
      · rw [h1] at this; exact absurd this (by decide)
      · rw [h2] at this; exact absurd this (by decide)

theorem char_digit_bounds {c : Char} (h : isDig c = true) :
    48 ≤ c.toNat ∧ c.toNat ≤ 57 := by
  simp only [isDig, Bool.and_eq_true, decide_eq_true_eq] at h
  obtain ⟨h1, h2⟩ := h
  simp only [Char.le_def] at h1 h2
  have h1' : (48 : UInt32).toNat ≤ c.val.toNat := h1
  have h2' : c.val.toNat ≤ (57 : UInt32).toNat := h2
  have e1 : (48 : UInt32).toNat = 48 := rfl
  have e2 : (57 : UInt32).toNat = 57 := rfl
  unfold Char.toNat
  omega

theorem digitsVal_foldl_lt (s : Str) (hall : s.all isDig = true) :
    ∀ acc : Nat, s.foldl (fun a c => 10 * a + (c.toNat - 48)) acc <
      (acc + 1) * 10 ^ s.length := by
  induction s with
  | nil => intro acc; simp only [List.foldl_nil, List.length_nil, pow_zero, mul_one]; omega
  | cons c rest ih =>
    intro acc
    simp only [List.all_cons, Bool.and_eq_true] at hall
    have hd : c.toNat - 48 ≤ 9 := by have := char_digit_bounds hall.1; omega
    have step := ih hall.2 (10 * acc + (c.toNat - 48))
    have hle : (10 * acc + (c.toNat - 48) + 1) * 10 ^ rest.length ≤
        (acc + 1) * 10 ^ (rest.length + 1) := by
      have : 10 * acc + (c.toNat - 48) + 1 ≤ (acc + 1) * 10 := by omega
      calc (10 * acc + (c.toNat - 48) + 1) * 10 ^ rest.length
          ≤ ((acc + 1) * 10) * 10 ^ rest.length := Nat.mul_le_mul_right _ this
        _ = (acc + 1) * 10 ^ (rest.length + 1) := by ring
    simpa [List.foldl_cons, List.length_cons] using lt_of_lt_of_le step hle

theorem digitsVal_lt (s : Str) (hall : s.all isDig = true) :
    digitsVal s < 10 ^ s.length := by
  simpa [digitsVal] using digitsVal_foldl_lt s hall 0

theorem isDig_ne_plus {c : Char} (h : isDig c = true) : c ≠ '+' := by
  intro he; subst he; exact absurd h (by decide)

theorem parseInt10_of_digits {s : Str} (hne : s ≠ []) (hall : s.all isDig = true)
    (hlen : s.length < 10) : parseInt10 s = some (digitsVal s) := by
  have hbound : digitsVal s ≤ int64Max := by
    have h1 := digitsVal_lt s hall
    have h2 : 10 ^ s.length ≤ 10 ^ 9 := Nat.pow_le_pow_right (by omega) (by omega)
    have : (10:Nat) ^ 9 ≤ int64Max + 1 := by norm_num [int64Max]
    omega
  match s, hne with
  | c :: rest, _ =>
    have hc : isDig c = true := by
      simp only [List.all_cons, Bool.and_eq_true] at hall; exact hall.1
    have hplus : ¬(c = '+') := isDig_ne_plus hc
    have hdash : ¬(c = '-') := isDig_ne_dash hc
    have hpd : parseDigits (c :: rest) = some (digitsVal (c :: rest)) := by
      simp [parseDigits, hall]
    simp [parseInt10, hplus, hdash, hpd, hbound]

/-- C1, counterexample: the all-digit string 1000000000 parses as the
decimal integer 10^9, which is at least 100000, yet classifyParameterType
types it timestamp rather than id, because the length-10 all-digit
timestamp rule has higher precedence than the numeric id rule. -/
theorem c1_counterexample :
    parseInt10 ['1','0','0','0','0','0','0','0','0','0'] = some 1000000000 ∧
    (100000 : Int) ≤ 1000000000 ∧
    classifyParameterType ['1','0','0','0','0','0','0','0','0','0'] ≠ ['i','d'] := by
  refine ⟨by decide, by decide, by decide⟩

/-- C1, amended: for every segment string that parses as a decimal
integer n, classifyParameterType never returns id when n lies in
[0,100) or in [10000,100000); and it returns id whenever n lies in
[100,10000) or n ≥ 100000, provided the string is not an unsigned
all-digit string of length at least 10 (such a string is typed timestamp
by the earlier rule, the only exception the counterexample forces). -/
theorem c1_amended {s : Str} {n : Int} (hp : parseInt10 s = some n) :
    (((0 ≤ n ∧ n < 100) ∨ (10000 ≤ n ∧ n < 100000)) →
      classifyParameterType s ≠ "id".toList) ∧
    ((((100 ≤ n ∧ n < 10000) ∨ 100000 ≤ n) ∧ matchTimestamp s = false) →
      classifyParameterType s = "id".toList) := by
  constructor
  · intro hband
    cases hts : matchTimestamp s with
    | true =>
      simp [classifyParameterType, matchUUID_false_of_parse hp,
        matchDate_false_of_parse hp, hts]
    | false =>
      have hh := matchHash_false_of_parse hp hts
      have hnum : ¬((100 ≤ n ∧ n < 10000) ∨ 100000 ≤ n) := by omega
      cases hsl : matchSlugLoose s with
      | true =>
        simp [classifyParameterType, matchUUID_false_of_parse hp,
          matchDate_false_of_parse hp, hts, hh, matchStripeId_false_of_parse hp,
          hp, hnum, hsl]
      | false =>
        simp [classifyParameterType, matchUUID_false_of_parse hp,
          matchDate_false_of_parse hp, hts, hh, matchStripeId_false_of_parse hp,
          hp, hnum, hsl]
  · rintro ⟨hband, hts⟩
    have hh := matchHash_false_of_parse hp hts
    simp [classifyParameterType, matchUUID_false_of_parse hp,
      matchDate_false_of_parse hp, hts, hh, matchStripeId_false_of_parse hp,
      hp, hband]

/-- C1, witness for the amended theorem at the concrete string 500. -/
theorem c1_amended_witness :
    parseInt10 ['5','0','0'] = some 500 ∧
    ((((0 : Int) ≤ 500 ∧ (500 : Int) < 100) ∨ ((10000 : Int) ≤ 500 ∧ (500 : Int) < 100000)) →
      classifyParameterType ['5','0','0'] ≠ "id".toList) ∧
    ((((100 : Int) ≤ 500 ∧ (500 : Int) < 10000) ∨ (100000 : Int) ≤ 500) ∧
        matchTimestamp ['5','0','0'] = false →
      classifyParameterType ['5','0','0'] = "id".toList) :=
  ⟨by decide, (c1_amended (by decide)).1, (c1_amended (by decide)).2⟩

theorem all_isDig_isLowerAlnum {s : Str} (hall : s.all isDig = true) :
    s.all isLowerAlnum = true := by
  rw [List.all_eq_true] at hall ⊢
  intro c hc
  simp only [isLowerAlnum, Bool.or_eq_true]
  exact Or.inr (hall c hc)

theorem matchTimestamp_false_short {s : Str} (hlen : s.length < 10) :
    matchTimestamp s = false := by
  simp only [matchTimestamp, Bool.and_eq_false_iff]
  exact Or.inl (by simpa using by omega)

theorem matchSlugLoose_digits {s : Str} (hne : s ≠ []) (hall : s.all isDig = true) :
    matchSlugLoose s = true := by
  have hsp : splitOnChar '-' s = [s] := splitOn_no_sep '-' s (all_isDig_ne_dash hall)
  simp [matchSlugLoose, hsp, hne, all_isDig_isLowerAlnum hall]

/-- C8: over all-digit strings of fewer than 10 digits (so that rules
1-5 of both predicates fail) with numeric value n, looksLikeParameter
holds exactly on the bands [100,2000), [2100,10000), [100000,inf), is
false on [2000,2100), classifyParameterType types all of [100,10000) as
id, and the two rule sets disagree exactly on the 2000-2100 band. -/
theorem c8_numeric_divergence {s : Str} {n : Nat} (hne : s ≠ [])
    (hall : s.all isDig = true) (hlen : s.length < 10) (hval : digitsVal s = n) :
    (looksLikeParameter s = true ↔
      ((100 ≤ n ∧ n < 2000) ∨ (2100 ≤ n ∧ n < 10000) ∨ 100000 ≤ n)) ∧
    ((2000 ≤ n ∧ n < 2100) → looksLikeParameter s = false) ∧
    ((100 ≤ n ∧ n < 10000) → classifyParameterType s = "id".toList) ∧
    ((looksLikeParameter s = true ↔ classifyParameterType s = "id".toList) ↔
      ¬(2000 ≤ n ∧ n < 2100)) := by
  have hp : parseInt10 s = some (n : Int) := by
    rw [← hval]; exact parseInt10_of_digits hne hall hlen
  have hts : matchTimestamp s = false := matchTimestamp_false_short hlen
  have hu := matchUUID_false_of_parse hp
  have hd := matchDate_false_of_parse hp
  have hh := matchHash_false_of_parse hp hts
  have hst := matchStripeId_false_of_parse hp
  have hsl := matchSlugLoose_digits hne hall
  have e1 : ((100 : Int) ≤ (n : Int) ∧ (n : Int) < 2000) ↔ (100 ≤ n ∧ n < 2000) := by omega
  have e2 : ((2100 : Int) ≤ (n : Int) ∧ (n : Int) < 10000) ↔ (2100 ≤ n ∧ n < 10000) := by
    omega
  have e3 : ((100000 : Int) ≤ (n : Int)) ↔ 100000 ≤ n := by omega
  have eid : (((100 : Int) ≤ (n : Int) ∧ (n : Int) < 10000) ∨ (100000 : Int) ≤ (n : Int)) ↔
      ((100 ≤ n ∧ n < 10000) ∨ 100000 ≤ n) := by omega
  have hlp : looksLikeParameter s =
      (if 100 ≤ n ∧ n < 2000 then true
       else if 2100 ≤ n ∧ n < 10000 then true
       else if 100000 ≤ n then true else false) := by
    simp only [looksLikeParameter, hu, hd, hts, hh, hst, hp, Bool.false_eq_true,
      if_false, e1, e2, e3]
  have hcls : classifyParameterType s =
      (if (100 ≤ n ∧ n < 10000) ∨ 100000 ≤ n then "id".toList else "slug".toList) := by
    by_cases hb : (100 ≤ n ∧ n < 10000) ∨ 100000 ≤ n
    · have hb' := eid.mpr hb
      simp only [classifyParameterType, hu, hd, hts, hh, hst, hp, Bool.false_eq_true,
        if_false, hb, if_true, if_pos, decide_eq_true_eq]
      rw [if_pos hb']
    · have hb' : ¬(((100 : Int) ≤ (n : Int) ∧ (n : Int) < 10000) ∨
          (100000 : Int) ≤ (n : Int)) := fun hx => hb (eid.mp hx)
      simp only [classifyParameterType, hu, hd, hts, hh, hst, hp, Bool.false_eq_true,
        if_false]
      rw [if_neg (by simpa using hb'), if_neg hb, if_pos hsl]
  have hne2 : ("slug".toList : Str) ≠ "id".toList := by decide
  refine ⟨?_, ?_, ?_, ?_⟩
  · rw [hlp]; split_ifs with h1 h2 h3 <;> simp <;> omega
  · intro hb; rw [hlp]; split_ifs with h1 h2 h3 <;> first | rfl | omega
  · intro hb; rw [hcls, if_pos (Or.inl hb)]
  · rw [hlp, hcls]
    split_ifs with h1 h2 h3 h4 h5 h6 h7 <;> simp [hne2] <;> omega

/-- C8, witness at the concrete string 2050: inside the excluded year
band looksLikeParameter rejects while classifyParameterType types id. -/
theorem c8_numeric_divergence_witness :
    ((['2','0','5','0'] : Str) ≠ [] ∧ (['2','0','5','0'] : Str).all isDig = true ∧
      (['2','0','5','0'] : Str).length < 10 ∧ digitsVal ['2','0','5','0'] = 2050) ∧
    ((looksLikeParameter ['2','0','5','0'] = true ↔
      ((100 ≤ 2050 ∧ 2050 < 2000) ∨ (2100 ≤ 2050 ∧ 2050 < 10000) ∨ 100000 ≤ 2050)) ∧
    ((2000 ≤ 2050 ∧ 2050 < 2100) → looksLikeParameter ['2','0','5','0'] = false) ∧
    ((100 ≤ 2050 ∧ 2050 < 10000) → classifyParameterType ['2','0','5','0'] = "id".toList) ∧
    ((looksLikeParameter ['2','0','5','0'] = true ↔
        classifyParameterType ['2','0','5','0'] = "id".toList) ↔
      ¬(2000 ≤ 2050 ∧ 2050 < 2100))) :=
  ⟨⟨by decide, by decide, by decide, by decide⟩,
   c8_numeric_divergence (by decide) (by decide) (by decide) (by decide)⟩

/-- The configuration of the still-learning scenario: defaults with
MinLearningCount three. -/
def cfgMin3 : Config := { DefaultConfig with MinLearningCount := 3 }

/-- C2: with a positive MinLearningCount, Classify of a non-empty path
first performs the insertion and the learned-count bump, and returns the
insufficient-data error carrying the updated count exactly when that
count is at most the threshold; on a fresh classifier with threshold 3
the first three classify calls report counts 1, 2, 3 and the fourth
returns a pattern; Classify of the empty string returns the empty
pattern with no error whatever the learned count. -/
theorem c2_learning_gate :
    (∀ (c : Classifier) (p : Str), 0 < c.config.MinLearningCount → p ≠ [] →
      (Classify c p).1 = { c with heap := insertURL c.config c.heap c.rootId p,
                                  learnedCount := c.learnedCount + 1 } ∧
      ((Classify c p).2 = ClassifyResult.insufficientData (c.learnedCount + 1) ↔
        c.learnedCount + 1 ≤ c.config.MinLearningCount)) ∧
    ((Classify (NewClassifier cfgMin3) ['/','a','b','o','u','t']).2 =
        ClassifyResult.insufficientData 1 ∧
      (Classify (Classify (NewClassifier cfgMin3) ['/','a','b','o','u','t']).1
          ['/','a','b','o','u','t']).2 = ClassifyResult.insufficientData 2 ∧
      (Classify (Classify (Classify (NewClassifier cfgMin3) ['/','a','b','o','u','t']).1
          ['/','a','b','o','u','t']).1 ['/','a','b','o','u','t']).2 =
        ClassifyResult.insufficientData 3 ∧
      (Classify (Classify (Classify (Classify (NewClassifier cfgMin3)
          ['/','a','b','o','u','t']).1 ['/','a','b','o','u','t']).1
          ['/','a','b','o','u','t']).1 ['/','a','b','o','u','t']).2 =
        ClassifyResult.ok ['/','a','b','o','u','t']) ∧
    (∀ (c : Classifier), Classify c [] = (c, ClassifyResult.ok [])) := by
  refine ⟨?_, by decide, fun c => by simp [Classify]⟩
  intro c p hm hp
  constructor
  · simp only [Classify, if_neg hp]
    split_ifs <;> rfl
  · simp only [Classify, if_neg hp]
    split_ifs with hgate hparts
    · simp only [ClassifyResult.insufficientData.injEq]
      exact ⟨fun _ => hgate.2, fun _ => trivial⟩
    · constructor
      · intro hx; exact absurd hx (by simp)
      · intro hle; exact absurd ⟨hm, hle⟩ hgate
    · constructor
      · intro hx; exact absurd hx (by simp)
      · intro hle; exact absurd ⟨hm, hle⟩ hgate

/-- C2, witness: the gate conjunct applied to a fresh classifier with
threshold three and one concrete non-empty path. -/
theorem c2_learning_gate_witness :
    0 < (NewClassifier cfgMin3).config.MinLearningCount ∧ (['/','x'] : Str) ≠ [] ∧
    ((Classify (NewClassifier cfgMin3) ['/','x']).1 =
      { NewClassifier cfgMin3 with
          heap := insertURL (NewClassifier cfgMin3).config (NewClassifier cfgMin3).heap
            (NewClassifier cfgMin3).rootId ['/','x'],
          learnedCount := (NewClassifier cfgMin3).learnedCount + 1 } ∧
     ((Classify (NewClassifier cfgMin3) ['/','x']).2 =
        ClassifyResult.insufficientData ((NewClassifier cfgMin3).learnedCount + 1) ↔
      (NewClassifier cfgMin3).learnedCount + 1 ≤
        (NewClassifier cfgMin3).config.MinLearningCount)) :=
  ⟨by decide, by decide, c2_learning_gate.1 (NewClassifier cfgMin3) ['/','x']
      (by decide) (by decide)⟩

/-- C10: for every non-empty path the classifier state left by Classify
equals the state left by Learn of the one-path batch (the classification
phase reads the heap but never writes it, and the transient merged nodes
are never attached), and Classify of the empty string returns the state
entirely unchanged. -/
theorem c10_classify_state_eq_learn :
    (∀ (c : Classifier) (p : Str), p ≠ [] → (Classify c p).1 = Learn c [p]) ∧
    (∀ (c : Classifier), Classify c [] = (c, ClassifyResult.ok [])) := by
  constructor
  · intro c p hp
    simp only [Classify, if_neg hp, Learn, List.foldl_cons, List.foldl_nil]
    split_ifs <;> rfl
  · intro c; simp [Classify]

/-- C10, witness: the state equality at a fresh default classifier and
one concrete path. -/
theorem c10_classify_state_eq_learn_witness :
    (['/','a'] : Str) ≠ [] ∧
    (Classify (NewClassifier DefaultConfig) ['/','a']).1 =
      Learn (NewClassifier DefaultConfig) [['/','a']] :=
  ⟨by decide, c10_classify_state_eq_learn.1 (NewClassifier DefaultConfig) ['/','a'] (by decide)⟩

/-- Adjacent occurrence of the separator somewhere in the string. -/
def hasAdj (sep : Char) : Str → Bool
  | a :: b :: t => (a = sep && b = sep) || hasAdj sep (b :: t)
  | _ => false

/-- Does the string end with the separator? -/
def endsWith (sep : Char) : Str → Bool
  | [] => false
  | [c] => c = sep
  | _ :: rest => endsWith sep rest

theorem splitOnChar_ne_nil (sep : Char) (l : Str) : splitOnChar sep l ≠ [] := by
  match l with
  | [] => simp [splitOnChar]
  | c :: rest =>
    by_cases hc : c = sep
    · simp [splitOnChar, hc]
    · simp only [splitOnChar, if_neg hc]
      match hs : splitOnChar sep rest with
      | [] => simp
      | p :: ps => simp

theorem splitOn_nonempty_aux (sep : Char) : ∀ l : Str,
    hasAdj sep l = false → endsWith sep l = false →
    ((l.head? = some sep → ∀ s ∈ (splitOnChar sep l).tail, s ≠ []) ∧
     (l.head? ≠ some sep → l ≠ [] → ∀ s ∈ splitOnChar sep l, s ≠ [])) := by
  intro l
  induction l with
  | nil =>
    intro _ _
    exact ⟨by simp, fun _ h => absurd rfl h⟩
  | cons c rest ih =>
    intro hadj hlast
    have hadjr : hasAdj sep rest = false := by
      cases rest with
      | nil => rfl
      | cons b t =>
        simp only [hasAdj, Bool.or_eq_false_iff] at hadj
        exact hadj.2
    have hlr : endsWith sep rest = false := by
      cases rest with
      | nil => rfl
      | cons b t => exact hlast
    obtain ⟨ih1, ih2⟩ := ih hadjr hlr
    by_cases hc : c = sep
    · subst hc
      constructor
      · intro _
        have hsp : splitOnChar c (c :: rest) = [] :: splitOnChar c rest := by
          simp [splitOnChar]
        rw [hsp]
        simp only [List.tail_cons]
        cases rest with
        | nil => exact absurd hlast (by simp [endsWith])
        | cons b t =>
          have hb : b ≠ c := by
            simp only [hasAdj, Bool.or_eq_false_iff, Bool.and_eq_false_iff,
              decide_eq_false_iff_not] at hadj
            rcases hadj.1 with h | h
            · exact absurd trivial (by simp at h)
            · exact h
          exact ih2 (by simp [hb]) (by simp)
      · intro hh
        simp at hh
    · constructor
      · intro hh
        simp only [List.head?_cons, Option.some.injEq] at hh
        exact absurd hh hc
      · intro _ _
        obtain ⟨p, ps, hsp⟩ : ∃ p ps, splitOnChar sep rest = p :: ps := by
          match hx : splitOnChar sep rest with
          | [] => exact absurd hx (splitOnChar_ne_nil sep rest)
          | q :: qs => exact ⟨q, qs, rfl⟩
        have hsl : splitOnChar sep (c :: rest) = (c :: p) :: ps := by
          simp only [splitOnChar, if_neg hc, hsp]
        rw [hsl]
        intro s hs
        rcases List.mem_cons.mp hs with hs1 | hs2
        · subst hs1; simp
        · cases rest with
          | nil =>
            have : p = [] ∧ ps = ([] : List Str) := by
              have : ([] : Str) :: [] = p :: ps := by simpa [splitOnChar] using hsp.symm
              exact ⟨(List.cons.inj this).1.symm ▸ rfl, (List.cons.inj this).2.symm⟩
            rw [this.2] at hs2
            exact absurd hs2 (List.not_mem_nil s)
          | cons b t =>
            by_cases hb : b = sep
            · have htail := ih1 (by simp [hb])
              rw [hsp] at htail
              exact htail s hs2
            · have hall := ih2 (by simp [hb]) (by simp)
              rw [hsp] at hall
              exact hall s (List.mem_cons_of_mem p hs2)

/-- C6, counterexample: splitting the path /a//b yields an empty middle
segment, and inserting the bare root path is not a no-op: it mutates the
trie by setting the root segment's end-of-path flag. -/
theorem c6_counterexample :
    ([] : Str) ∈ splitURL ['/','a','/','/','b'] ∧
    ((insertURL DefaultConfig (NewClassifier DefaultConfig).heap
        (NewClassifier DefaultConfig).rootId ['/']).get
          (NewClassifier DefaultConfig).rootId).isEnd = true ∧
    ((NewClassifier DefaultConfig).heap.get (NewClassifier DefaultConfig).rootId).isEnd
      = false ∧
    insertURL DefaultConfig (NewClassifier DefaultConfig).heap
        (NewClassifier DefaultConfig).rootId ['/'] ≠ (NewClassifier DefaultConfig).heap := by
  exact ⟨by decide, by decide, by decide, by decide⟩

/-- C6, amended: splitting produces only non-empty segments for paths
with no two consecutive slashes and no trailing slash; inserting the
empty string leaves the heap unchanged; inserting the bare root path
(zero segments) changes nothing except marking the root an end node. -/
theorem c6_amended :
    (∀ url : Str, hasAdj '/' url = false → endsWith '/' url = false →
      ∀ s ∈ splitURL url, s ≠ []) ∧
    (∀ (cfg : Config) (h : Heap) (rootId : Nat), insertURL cfg h rootId [] = h) ∧
    (∀ (cfg : Config) (h : Heap) (rootId : Nat),
      insertURL cfg h rootId ['/'] = h.set rootId { h.get rootId with isEnd := true }) := by
  refine ⟨?_, fun cfg h rootId => rfl, fun cfg h rootId => rfl⟩
  intro url hadj hlast
  match url with
  | [] => simp [splitURL]
  | c :: rest =>
    by_cases hc : c = '/'
    · subst hc
      match rest with
      | [] => simp [splitURL]
      | b :: t =>
        have hu : splitURL ('/' :: b :: t) = splitOnChar '/' (b :: t) := by
          simp [splitURL]
        rw [hu]
        have hadjr : hasAdj '/' (b :: t) = false := by
          simp only [hasAdj, Bool.or_eq_false_iff] at hadj
          exact hadj.2
        have hlr : endsWith '/' (b :: t) = false := hlast
        have hb : b ≠ '/' := by
          simp only [hasAdj, Bool.or_eq_false_iff, Bool.and_eq_false_iff,
            decide_eq_false_iff_not] at hadj
          rcases hadj.1 with h | h
          · exact absurd trivial (by simp at h)
          · exact h
        exact (splitOn_nonempty_aux '/' (b :: t) hadjr hlr).2 (by simp [hb]) (by simp)
    · have hu : splitURL (c :: rest) = splitOnChar '/' (c :: rest) := by
        simp [splitURL, hc]
      rw [hu]
      exact (splitOn_nonempty_aux '/' (c :: rest) hadj hlast).2 (by simp [hc]) (by simp)

/-- C6, witness: the amended split property applied to the concrete
well-formed path /a/b. -/
theorem c6_amended_witness :
    hasAdj '/' ['/','a','/','b'] = false ∧ endsWith '/' ['/','a','/','b'] = false ∧
    (∀ s ∈ splitURL ['/','a','/','b'], s ≠ []) :=
  ⟨by decide, by decide, c6_amended.1 ['/','a','/','b'] (by decide) (by decide)⟩

/-! Exact-rational bridges for the two float comparisons of
hasHighVariability. -/

theorem rat_num_key (q : ℚ) : (q.num : ℚ) = q * (q.den : ℚ) := by
  have hd : ((q.den : ℚ)) ≠ 0 := by exact_mod_cast q.den_nz
  have h := Rat.num_div_den q
  rw [div_eq_iff hd] at h
  exact h

theorem rat_mul_le_iff (q : ℚ) (t l : ℕ) :
    q * (t : ℚ) ≤ (l : ℚ) ↔ q.num * (t : ℤ) ≤ (l : ℤ) * (q.den : ℤ) := by
  have hden : (0 : ℚ) < (q.den : ℚ) := by exact_mod_cast q.pos
  constructor
  · intro h
    have h2 : q * (t : ℚ) * (q.den : ℚ) ≤ (l : ℚ) * (q.den : ℚ) :=
      mul_le_mul_of_nonneg_right h (le_of_lt hden)
    have h3 : ((q.num * t : ℤ) : ℚ) ≤ ((l * q.den : ℤ) : ℚ) := by
      push_cast
      calc (q.num : ℚ) * t = q * (q.den : ℚ) * t := by rw [← rat_num_key]
        _ = q * t * q.den := by ring
        _ ≤ (l : ℚ) * q.den := h2
    exact_mod_cast h3
  · intro h
    have h3 : ((q.num * t : ℤ) : ℚ) ≤ ((l * q.den : ℤ) : ℚ) := by exact_mod_cast h
    push_cast at h3
    rw [rat_num_key] at h3
    have h4 : q * t * q.den ≤ (l : ℚ) * q.den := by linarith [h3]
    exact le_of_mul_le_mul_right h4 hden

theorem rat_lt_three_quarters_iff (q : ℚ) :
    q < 3 / 4 ↔ 4 * q.num < 3 * (q.den : ℤ) := by
  have hden : (0 : ℚ) < (q.den : ℚ) := by exact_mod_cast q.pos
  constructor
  · intro h
    have h2 : q * (q.den : ℚ) * 4 < 3 / 4 * (q.den : ℚ) * 4 := by
      apply mul_lt_mul_of_pos_right _ (by norm_num)
      exact mul_lt_mul_of_pos_right h hden
    have h3 : ((4 * q.num : ℤ) : ℚ) < ((3 * q.den : ℤ) : ℚ) := by
      push_cast
      rw [rat_num_key]
      calc (4 : ℚ) * (q * q.den) = q * q.den * 4 := by ring
        _ < 3 / 4 * (q.den : ℚ) * 4 := h2
        _ = 3 * q.den := by ring
    exact_mod_cast h3
  · intro h
    have h3 : ((4 * q.num : ℤ) : ℚ) < ((3 * q.den : ℤ) : ℚ) := by exact_mod_cast h
    push_cast at h3
    rw [rat_num_key] at h3
    have h4 : q * q.den * 4 < 3 / 4 * (q.den : ℚ) * 4 := by linarith [h3]
    have h5 : q * q.den < 3 / 4 * (q.den : ℚ) := lt_of_mul_lt_mul_right h4 (by norm_num)
    exact lt_of_mul_lt_mul_right h5 (le_of_lt hden)

/-- The variability rule in the words of the specification: either the
single dominant child rule (exactly one child, traversed at least
MinSamples times, whose key textually matches a dynamic-value pattern),
or the fan-out rule (at least minChildren children, 3 normally and 2
when the threshold is below 0.75, with the ratio of the number of
distinct children to the sum of the children's totalCount at least the
threshold, as an exact rational inequality). -/
def specHighVariability (cfg : Config) (h : Heap) (node : NodeView) : Prop :=
  (∃ k c, childrenV h node = [(k, c)] ∧ cfg.MinSamples ≤ totalCountV h c ∧
    looksLikeParameter k = true) ∨
  ((if cfg.CardinalityThreshold < 3 / 4 then 2 else 3) ≤ (childrenV h node).length ∧
    cfg.CardinalityThreshold ≤
      (((childrenV h node).length : ℚ) /
        ((((childrenV h node).map (fun p => totalCountV h p.2)).sum : ℕ) : ℚ)))

/-- C9: hasHighVariability holds exactly when the specification's rule
says so, over every walk position whose children all have positive
traversal counts (as every child created by insertion does; on a zero
denominator the float quotient of the code and the exact ratio of the
spec would part ways). -/
theorem c9_variability_iff (cfg : Config) (h : Heap) (node : NodeView)
    (hpos : ∀ p ∈ childrenV h node, 0 < totalCountV h p.2) :
    hasHighVariability cfg h node = true ↔ specHighVariability cfg h node := by
  unfold hasHighVariability specHighVariability
  rw [Bool.or_eq_true]
  constructor
  · rintro (hA | hB)
    · left
      match hcs : childrenV h node, hA with
      | [(k, c)], hA =>
        simp only [Bool.and_eq_true, decide_eq_true_eq] at hA
        exact ⟨k, c, rfl, hA.1, hA.2⟩
    · right
      rw [Bool.and_eq_true, decide_eq_true_eq, decide_eq_true_eq] at hB
      obtain ⟨hmin, hratio⟩ := hB
      have hminEq :
          (if 4 * cfg.CardinalityThreshold.num < 3 * (cfg.CardinalityThreshold.den : Int)
           then 2 else 3) =
          (if cfg.CardinalityThreshold < 3 / 4 then 2 else 3) := by
        by_cases hq : cfg.CardinalityThreshold < 3 / 4
        · rw [if_pos hq, if_pos ((rat_lt_three_quarters_iff _).mp hq)]
        · rw [if_neg hq, if_neg (fun hx => hq ((rat_lt_three_quarters_iff _).mpr hx))]
      constructor
      · rw [← hminEq]; exact hmin
      · have hlen : 0 < (childrenV h node).length := by
          split_ifs at hmin <;> omega
        obtain ⟨p, hp⟩ := List.exists_mem_of_length_pos hlen
        have htot : 0 < ((childrenV h node).map (fun p => totalCountV h p.2)).sum := by
          have := hpos p hp
          have hmem : totalCountV h p.2 ∈ (childrenV h node).map (fun p => totalCountV h p.2) :=
            List.mem_map_of_mem _ hp
          calc 0 < totalCountV h p.2 := this
            _ ≤ _ := List.single_le_sum (fun _ _ => Nat.zero_le _) _ hmem
        rw [le_div_iff₀ (by exact_mod_cast htot)]
        rw [rat_mul_le_iff]
        exact hratio
  · rintro (⟨k, c, hcs, hms, hlk⟩ | ⟨hmin, hratio⟩)
    · left
      rw [hcs]
      simp only [Bool.and_eq_true, decide_eq_true_eq]
      exact ⟨hms, hlk⟩
    · right
      rw [Bool.and_eq_true, decide_eq_true_eq, decide_eq_true_eq]
      have hminEq :
          (if 4 * cfg.CardinalityThreshold.num < 3 * (cfg.CardinalityThreshold.den : Int)
           then 2 else 3) =
          (if cfg.CardinalityThreshold < 3 / 4 then 2 else 3) := by
        by_cases hq : cfg.CardinalityThreshold < 3 / 4
        · rw [if_pos hq, if_pos ((rat_lt_three_quarters_iff _).mp hq)]
        · rw [if_neg hq, if_neg (fun hx => hq ((rat_lt_three_quarters_iff _).mpr hx))]
      refine ⟨by rw [hminEq]; exact hmin, ?_⟩
      have hlen : 0 < (childrenV h node).length := by
        split_ifs at hmin <;> omega
      obtain ⟨p, hp⟩ := List.exists_mem_of_length_pos hlen
      have htot : 0 < ((childrenV h node).map (fun p => totalCountV h p.2)).sum := by
        have := hpos p hp
        have hmem : totalCountV h p.2 ∈ (childrenV h node).map (fun p => totalCountV h p.2) :=
          List.mem_map_of_mem _ hp
        calc 0 < totalCountV h p.2 := this
          _ ≤ _ := List.single_le_sum (fun _ _ => Nat.zero_le _) _ hmem
      rw [le_div_iff₀ (by exact_mod_cast htot)] at hratio
      rw [rat_mul_le_iff] at hratio
      exact hratio

/-- C9, witness: the equivalence at a trie learned from three distinct
single-segment paths, whose root has three children each traversed
once. -/
theorem c9_variability_iff_witness :
    (∀ p ∈ childrenV (Learn (NewClassifier DefaultConfig) [['/','a'],['/','b'],['/','c']]).heap
        (NodeView.ref 0), 0 < totalCountV
          (Learn (NewClassifier DefaultConfig) [['/','a'],['/','b'],['/','c']]).heap p.2) ∧
    (hasHighVariability DefaultConfig
        (Learn (NewClassifier DefaultConfig) [['/','a'],['/','b'],['/','c']]).heap
        (NodeView.ref 0) = true ↔
      specHighVariability DefaultConfig
        (Learn (NewClassifier DefaultConfig) [['/','a'],['/','b'],['/','c']]).heap
        (NodeView.ref 0)) :=
  ⟨by decide, c9_variability_iff DefaultConfig _ (NodeView.ref 0) (by decide)⟩

/-! Store lemmas and store-wide invariants. -/

theorem hlookup_hset_self (k : Nat) (v : Segment) (l : List (Nat × Segment)) :
    hlookup k (hset k v l) = some v := by
  induction l with
  | nil => simp [hset, hlookup]
  | cons p rest ih =>
    by_cases hp : p.1 = k
    · simp [hset, hp, hlookup]
    · simp [hset, hp, hlookup, ih]

theorem hlookup_hset_ne (k j : Nat) (v : Segment) (l : List (Nat × Segment))
    (hne : j ≠ k) : hlookup j (hset k v l) = hlookup j l := by
  induction l with
  | nil => simp [hset, hlookup, Ne.symm hne]
  | cons p rest ih =>
    by_cases hp : p.1 = k
    · subst hp
      simp [hset, hlookup, Ne.symm hne, ih]
    · by_cases hj : p.1 = j
      · simp only [hset, if_neg hp]
        simp [hlookup, hj]
      · simp [hset, hp, hlookup, hj, ih]

theorem Heap.get_set_self (h : Heap) (id : Nat) (d : Segment) :
    (h.set id d).get id = d := by
  simp [Heap.get, Heap.set, hlookup_hset_self]

theorem Heap.get_set_ne (h : Heap) (id : Nat) (d : Segment) (j : Nat) (hne : j ≠ id) :
    (h.set id d).get j = h.get j := by
  simp [Heap.get, Heap.set, hlookup_hset_ne id j d h.store hne]

theorem Heap.get_alloc (h : Heap) (d : Segment) (j : Nat) :
    (h.alloc d).1.get j = (h.set h.nextId d).get j := rfl

/-- A per-node property holding of every node the heap can hand out
(stored nodes and the blank default alike). -/
def HeapAll (P : Segment → Prop) (h : Heap) : Prop := ∀ id : Nat, P (h.get id)

theorem HeapAll_set {P : Segment → Prop} {h : Heap} {id : Nat} {d : Segment}
    (hall : HeapAll P h) (hd : P d) : HeapAll P (h.set id d) := by
  intro j
  by_cases hj : j = id
  · subst hj; rw [Heap.get_set_self]; exact hd
  · rw [Heap.get_set_ne h id d j hj]; exact hall j

theorem HeapAll_alloc {P : Segment → Prop} {h : Heap} {d : Segment}
    (hall : HeapAll P h) (hd : P d) : HeapAll P (h.alloc d).1 := by
  intro j
  rw [Heap.get_alloc]
  exact HeapAll_set hall hd j

theorem foldl_heap_preserve {α : Type} {P : Heap → Prop} {f : Heap → α → Heap}
    (hf : ∀ (hh : Heap) (x : α), P hh → P (f hh x)) :
    ∀ (l : List α) (h : Heap), P h → P (l.foldl f h) := by
  intro l
  induction l with
  | nil => intro h hp; exact hp
  | cons x rest ih => intro h hp; exact ih (f h x) (hf h x hp)

theorem sumCounts_addValue (k : Str) (n : Nat) (m : List (Str × Nat)) :
    sumCounts (addValue k n m) = sumCounts m + n := by
  induction m with
  | nil => simp [addValue, sumCounts]
  | cons p rest ih =>
    by_cases hp : p.1 = k
    · simp [addValue, hp, sumCounts]; omega
    · simp only [addValue, if_neg hp]
      simp only [sumCounts, List.map_cons, List.sum_cons] at ih ⊢
      omega

theorem sumCounts_mergeValues (d s : List (Str × Nat)) :
    sumCounts (mergeValues d s) = sumCounts d + sumCounts s := by
  induction s generalizing d with
  | nil => simp [mergeValues, sumCounts]
  | cons p rest ih =>
    simp only [mergeValues, List.foldl_cons] at ih ⊢
    rw [ih (addValue p.1 p.2 d), sumCounts_addValue]
    simp only [sumCounts, List.map_cons, List.sum_cons]
    omega

theorem length_addValue (k : Str) (n : Nat) (m : List (Str × Nat)) :
    (addValue k n m).length =
      if (alookup k m).isSome then m.length else m.length + 1 := by
  induction m with
  | nil => simp [addValue, alookup]
  | cons p rest ih =>
    by_cases hp : p.1 = k
    · simp [addValue, hp, alookup]
    · simp only [addValue, if_neg hp, alookup, List.length_cons, ih]
      split_ifs <;> rfl

/-- The per-node inequality of the spec: the totalCount dominates the
sum of the per-value counts. -/
def SumInv (d : Segment) : Prop := sumCounts d.values ≤ d.totalCount

theorem sumInv_new (v : Str) : SumInv (NewSegment v) := by
  simp [SumInv, NewSegment, sumCounts]

theorem sumInv_mergeChildIntoWildcard {h : Heap} (wid cid : Nat)
    (hall : HeapAll SumInv h) : HeapAll SumInv (mergeChildIntoWildcard h wid cid) := by
  unfold mergeChildIntoWildcard
  refine foldl_heap_preserve ?_ _ _ ?_
  · intro hh g hhall
    cases hlk : alookup g.1 (hh.get wid).children with
    | none =>
      simp only [hlk]
      refine HeapAll_set hhall ?_
      have hw := hhall wid
      simpa [SumInv] using hw
    | some tid =>
      simp only [hlk]
      refine HeapAll_set hhall ?_
      have ht := hhall tid
      have hg := hhall g.2
      simp only [SumInv] at ht hg ⊢
      rw [sumCounts_mergeValues]
      omega
  · refine HeapAll_set hall ?_
    exact le_trans (hall wid) (Nat.le_add_right _ _)

theorem sumInv_collapseChildren {h : Heap} (nodeId : Nat)
    (hall : HeapAll SumInv h) : HeapAll SumInv (collapseChildren h nodeId) := by
  unfold collapseChildren
  dsimp only
  split_ifs with hc
  · exact hall
  · have hall1 : HeapAll SumInv (h.alloc wildcardSeg).1 :=
      HeapAll_alloc hall (by simp [SumInv, wildcardSeg, NewSegment, sumCounts])
    have hall2 : HeapAll SumInv ((h.get nodeId).children.foldl
        (fun hAcc p => mergeChildIntoWildcard hAcc
          (h.alloc wildcardSeg).2 p.2)
        (h.alloc wildcardSeg).1) := by
      refine foldl_heap_preserve ?_ _ _ hall1
      intro hh p hhall
      exact sumInv_mergeChildIntoWildcard _ _ hhall
    refine HeapAll_set hall2 ?_
    have hn := hall2 nodeId
    simpa [SumInv] using hn

theorem sumInv_routeChild {h : Heap} (nodeId : Nat) (part : Str)
    (hall : HeapAll SumInv h) : HeapAll SumInv (routeChild h nodeId part).1 := by
  unfold routeChild
  dsimp only
  split_ifs with hcol
  · cases hlk : alookup starKey (h.get nodeId).children with
    | some cid => simp only [hlk]; exact hall
    | none =>
      simp only [hlk]
      exact HeapAll_set (HeapAll_alloc hall (sumInv_new starKey)) (hall nodeId)
  · cases hlk : alookup part (h.get nodeId).children with
    | some cid => simp only [hlk]; exact hall
    | none =>
      simp only [hlk]
      exact HeapAll_set (HeapAll_alloc hall (sumInv_new part)) (hall nodeId)

theorem sumInv_bumpChild (cfg : Config) {h : Heap} (childId : Nat) (part : Str)
    (hall : HeapAll SumInv h) : HeapAll SumInv (bumpChild cfg h childId part) := by
  unfold bumpChild
  dsimp only
  have hc : sumCounts (h.get childId).values ≤ (h.get childId).totalCount := hall childId
  split_ifs with h1 h2
  · refine HeapAll_set hall ?_
    show sumCounts (addValue part 1 (h.get childId).values) ≤ (h.get childId).totalCount + 1
    rw [sumCounts_addValue]
    omega
  · refine HeapAll_set hall ?_
    show sumCounts (addValue part 1 (h.get childId).values) ≤ (h.get childId).totalCount + 1
    rw [sumCounts_addValue]
    omega
  · refine HeapAll_set hall ?_
    show sumCounts (h.get childId).values ≤ (h.get childId).totalCount + 1
    omega

theorem sumInv_maybeCollapse (cfg : Config) {h : Heap} (nodeId : Nat)
    (hall : HeapAll SumInv h) : HeapAll SumInv (maybeCollapse cfg h nodeId) := by
  unfold maybeCollapse
  dsimp only
  split_ifs with hc
  · exact sumInv_collapseChildren nodeId hall
  · exact hall

theorem sumInv_insertPartStep (cfg : Config) {h : Heap} (nodeId : Nat) (part : Str)
    (hall : HeapAll SumInv h) : HeapAll SumInv (insertPartStep cfg h nodeId part).1 :=
  sumInv_maybeCollapse cfg nodeId
    (sumInv_bumpChild cfg (routeChild h nodeId part).2 part
      (sumInv_routeChild nodeId part hall))

theorem sumInv_insertParts (cfg : Config) : ∀ (parts : List Str) (h : Heap) (id : Nat),
    HeapAll SumInv h → HeapAll SumInv (insertParts cfg h id parts).1 := by
  intro parts
  induction parts with
  | nil => intro h id hall; exact hall
  | cons part rest ih =>
    intro h id hall
    exact ih _ _ (sumInv_insertPartStep cfg id part hall)

theorem sumInv_insertURL (cfg : Config) {h : Heap} (rootId : Nat) (url : Str)
    (hall : HeapAll SumInv h) : HeapAll SumInv (insertURL cfg h rootId url) := by
  unfold insertURL
  split_ifs with hu
  · exact hall
  · dsimp only
    have hparts := sumInv_insertParts cfg (splitURL url) h rootId hall
    refine HeapAll_set hparts ?_
    exact hparts (insertParts cfg h rootId (splitURL url)).2

theorem sumInv_Learn : ∀ (urls : List Str) (c : Classifier),
    HeapAll SumInv c.heap → HeapAll SumInv (Learn c urls).heap := by
  intro urls
  induction urls with
  | nil => intro c hall; exact hall
  | cons url rest ih =>
    intro c hall
    exact ih _ (sumInv_insertURL c.config c.rootId url hall)

theorem sumInv_Classify (c : Classifier) (url : Str)
    (hall : HeapAll SumInv c.heap) : HeapAll SumInv (Classify c url).1.heap := by
  unfold Classify
  split_ifs with h1
  · exact hall
  · dsimp only
    split_ifs <;> exact sumInv_insertURL c.config c.rootId url hall

theorem sumInv_runOps : ∀ (ops : List Op) (c : Classifier),
    HeapAll SumInv c.heap → HeapAll SumInv (runOps c ops).heap := by
  intro ops
  induction ops with
  | nil => intro c hall; exact hall
  | cons op rest ih =>
    intro c hall
    refine ih _ ?_
    cases op with
    | learn urls => exact sumInv_Learn urls c hall
    | classify url => exact sumInv_Classify c url hall

theorem sumInv_NewClassifier (cfg : Config) : HeapAll SumInv (NewClassifier cfg).heap := by
  refine HeapAll_alloc ?_ (sumInv_new [])
  intro id
  simp [Heap.get, hlookup, SumInv, NewSegment, sumCounts]

/-- The bounding configuration of the concrete collapse traces: a low
threshold of one quarter, a value cap of two, pruning enabled. -/
def cfgPrune : Config :=
  { CardinalityThreshold := ⟨1, 4, by decide, by decide⟩, MinSamples := 2,
    MinLearningCount := 0, MaxValuesPerNode := 2, PruneHighCardinality := true }

/-- A trace that collapses the node under 100 and then runs into the
value cap of its wildcard child. -/
def strictTrace : List Str :=
  ["/100/111".toList, "/100/222".toList, "/100/5".toList, "/100/6".toList,
   "/100/7".toList]

set_option maxRecDepth 100000 in
/-- C7: after every sequence of Learn and Classify calls from a fresh
classifier, every node the heap can hand out satisfies
sumCounts values ≤ totalCount (so in particular every node reachable in
the owned trie does), and the inequality is strict when value capping
blocked a new distinct literal: in the concrete capped trace the
wildcard node under 100 has value sum 2 but totalCount 5, its values map
is full at the cap, and the blocked literal 7 is absent from it. -/
theorem c7_total_dominates_values :
    (∀ (cfg : Config) (ops : List Op) (id : Nat),
      sumCounts (((runOps (NewClassifier cfg) ops).heap.get id).values) ≤
        ((runOps (NewClassifier cfg) ops).heap.get id).totalCount) ∧
    (sumCounts (((Learn (NewClassifier cfgPrune) strictTrace).heap.get
        (nodeAtPath (Learn (NewClassifier cfgPrune) strictTrace).heap
          (Learn (NewClassifier cfgPrune) strictTrace).rootId
          ["100".toList, starKey])).values) = 2 ∧
      ((Learn (NewClassifier cfgPrune) strictTrace).heap.get
        (nodeAtPath (Learn (NewClassifier cfgPrune) strictTrace).heap
          (Learn (NewClassifier cfgPrune) strictTrace).rootId
          ["100".toList, starKey])).totalCount = 5 ∧
      ((Learn (NewClassifier cfgPrune) strictTrace).heap.get
        (nodeAtPath (Learn (NewClassifier cfgPrune) strictTrace).heap
          (Learn (NewClassifier cfgPrune) strictTrace).rootId
          ["100".toList, starKey])).values.length = cfgPrune.MaxValuesPerNode ∧
      alookup "7".toList (((Learn (NewClassifier cfgPrune) strictTrace).heap.get
        (nodeAtPath (Learn (NewClassifier cfgPrune) strictTrace).heap
          (Learn (NewClassifier cfgPrune) strictTrace).rootId
          ["100".toList, starKey])).values) = none) := by
  constructor
  · intro cfg ops id
    exact sumInv_runOps ops (NewClassifier cfg) (sumInv_NewClassifier cfg) id
  · exact ⟨by decide, by decide, by decide, by decide⟩

/-- The per-node value-cap property. -/
def ValInv (k : Nat) (d : Segment) : Prop := d.values.length ≤ k

theorem valInv_routeChild (k : Nat) {h : Heap} (nodeId : Nat) (part : Str)
    (hall : HeapAll (ValInv k) h) : HeapAll (ValInv k) (routeChild h nodeId part).1 := by
  unfold routeChild
  dsimp only
  split_ifs with hcol
  · cases hlk : alookup starKey (h.get nodeId).children with
    | some cid => simp only [hlk]; exact hall
    | none =>
      simp only [hlk]
      exact HeapAll_set (HeapAll_alloc hall (by simp [ValInv, NewSegment])) (hall nodeId)
  · cases hlk : alookup part (h.get nodeId).children with
    | some cid => simp only [hlk]; exact hall
    | none =>
      simp only [hlk]
      exact HeapAll_set (HeapAll_alloc hall (by simp [ValInv, NewSegment])) (hall nodeId)

theorem valInv_bumpChild (cfg : Config) (k : Nat) (hk : cfg.MaxValuesPerNode = k)
    (hkpos : 0 < k) {h : Heap} (childId : Nat) (part : Str)
    (hall : HeapAll (ValInv k) h) : HeapAll (ValInv k) (bumpChild cfg h childId part) := by
  unfold bumpChild
  dsimp only
  subst hk
  have hc : (h.get childId).values.length ≤ cfg.MaxValuesPerNode := hall childId
  split_ifs with h1 h2
  · refine HeapAll_set hall ?_
    show (addValue part 1 (h.get childId).values).length ≤ cfg.MaxValuesPerNode
    rw [length_addValue]
    simp only [Bool.or_eq_true, decide_eq_true_eq] at h1
    rcases h1 with h1 | h1
    · omega
    · split_ifs <;> omega
  · refine HeapAll_set hall ?_
    show (addValue part 1 (h.get childId).values).length ≤ cfg.MaxValuesPerNode
    rw [length_addValue, if_pos h2]
    exact hc
  · exact HeapAll_set hall hc

theorem valInv_maybeCollapse (cfg : Config) (k : Nat)
    (hpr : cfg.PruneHighCardinality = false) {h : Heap} (nodeId : Nat)
    (hall : HeapAll (ValInv k) h) : HeapAll (ValInv k) (maybeCollapse cfg h nodeId) := by
  unfold maybeCollapse
  simp only [hpr, Bool.false_and, Bool.false_eq_true, if_false]
  exact hall

theorem valInv_insertURL (cfg : Config) (k : Nat) (hk : cfg.MaxValuesPerNode = k)
    (hkpos : 0 < k) (hpr : cfg.PruneHighCardinality = false) {h : Heap}
    (rootId : Nat) (url : Str) (hall : HeapAll (ValInv k) h) :
    HeapAll (ValInv k) (insertURL cfg h rootId url) := by
  unfold insertURL
  split_ifs with hu
  · exact hall
  · dsimp only
    have hparts : ∀ (parts : List Str) (hh : Heap) (id : Nat), HeapAll (ValInv k) hh →
        HeapAll (ValInv k) (insertParts cfg hh id parts).1 := by
      intro parts
      induction parts with
      | nil => intro hh id hall2; exact hall2
      | cons part rest ih =>
        intro hh id hall2
        refine ih _ _ ?_
        exact valInv_maybeCollapse cfg k hpr _
          (valInv_bumpChild cfg k hk hkpos _ part (valInv_routeChild k _ part hall2))
    have hp := hparts (splitURL url) h rootId hall
    refine HeapAll_set hp ?_
    exact hp (insertParts cfg h rootId (splitURL url)).2

theorem config_Learn (urls : List Str) : ∀ c : Classifier, (Learn c urls).config = c.config := by
  induction urls with
  | nil => intro c; rfl
  | cons url rest ih => intro c; exact ih _

theorem config_Classify (c : Classifier) (url : Str) : (Classify c url).1.config = c.config := by
  unfold Classify
  split_ifs with h1
  · rfl
  · dsimp only
    split_ifs <;> rfl

theorem valInv_runOps (k : Nat) (hkpos : 0 < k) : ∀ (ops : List Op) (c : Classifier),
    c.config.MaxValuesPerNode = k → c.config.PruneHighCardinality = false →
    HeapAll (ValInv k) c.heap → HeapAll (ValInv k) (runOps c ops).heap := by
  intro ops
  induction ops with
  | nil => intro c _ _ hall; exact hall
  | cons op rest ih =>
    intro c hk hpr hall
    have hcfg : (applyOp c op).config = c.config := by
      cases op with
      | learn urls => exact config_Learn urls c
      | classify url => exact config_Classify c url
    refine ih (applyOp c op) (by rw [hcfg]; exact hk) (by rw [hcfg]; exact hpr) ?_
    cases op with
    | learn urls =>
      show HeapAll (ValInv k) (Learn c urls).heap
      have : ∀ (us : List Str) (cc : Classifier), cc.config.MaxValuesPerNode = k →
          cc.config.PruneHighCardinality = false → HeapAll (ValInv k) cc.heap →
          HeapAll (ValInv k) (Learn cc us).heap := by
        intro us
        induction us with
        | nil => intro cc _ _ h; exact h
        | cons u tail ihh =>
          intro cc hk2 hpr2 h
          exact ihh _ hk2 hpr2 (valInv_insertURL cc.config k hk2 hkpos hpr2 cc.rootId u h)
      exact this urls c hk hpr hall
    | classify url =>
      show HeapAll (ValInv k) (Classify c url).1.heap
      unfold Classify
      split_ifs with h1
      · exact hall
      · dsimp only
        split_ifs <;> exact valInv_insertURL c.config k hk hkpos hpr c.rootId url hall

/-- The twelve-path trace whose final insertion collapses the root and
merges the two full wildcard value maps into one oversized map. -/
def capTrace : List Str :=
  ["/100/111".toList, "/100/222".toList, "/100/5".toList, "/100/6".toList,
   "/100/5".toList, "/100/6".toList, "/100/5".toList, "/100/6".toList,
   "/200/333".toList, "/200/444".toList, "/200/7".toList, "/300".toList]

set_option maxRecDepth 200000 in
/-- C3, counterexample: with the cap at two and pruning enabled, the
twelve-path trace leaves a node reachable in the owned trie (the
wildcard grandchild of the collapsed root) holding three distinct
values: the collapse merge sums sibling value maps past the cap. -/
theorem c3_counterexample :
    cfgPrune.MaxValuesPerNode = 2 ∧ cfgPrune.PruneHighCardinality = true ∧
    alookup starKey (((Learn (NewClassifier cfgPrune) capTrace).heap.get
      (Learn (NewClassifier cfgPrune) capTrace).rootId).children) = some 10 ∧
    alookup starKey (((Learn (NewClassifier cfgPrune) capTrace).heap.get 10).children)
      = some 4 ∧
    ((Learn (NewClassifier cfgPrune) capTrace).heap.get 4).values.length = 3 := by
  exact ⟨by decide, by decide, by decide, by decide, by decide⟩

/-- C3, amended: the cap invariant as claimed holds for every
configuration with a positive cap whenever the collapse optimization is
disabled: after every sequence of Learn and Classify calls from a fresh
classifier, every node the heap can hand out stores at most
MaxValuesPerNode values (the counterexample shows collapse merging can
break the cap, the only restriction the amendment adds). -/
theorem c3_amended (cfg : Config) (hkpos : 0 < cfg.MaxValuesPerNode)
    (hpr : cfg.PruneHighCardinality = false) (ops : List Op) (id : Nat) :
    ((runOps (NewClassifier cfg) ops).heap.get id).values.length ≤
      cfg.MaxValuesPerNode := by
  refine valInv_runOps cfg.MaxValuesPerNode hkpos ops (NewClassifier cfg) rfl hpr ?_ id
  refine HeapAll_alloc ?_ (by simp [ValInv, NewSegment])
  intro j
  simp [Heap.get, hlookup, ValInv, NewSegment]

/-- C3, witness for the amended theorem: cap one, pruning off, one
learned path. -/
theorem c3_amended_witness :
    0 < ({ DefaultConfig with MaxValuesPerNode := 1 } : Config).MaxValuesPerNode ∧
    ({ DefaultConfig with MaxValuesPerNode := 1 } : Config).PruneHighCardinality = false ∧
    ((runOps (NewClassifier { DefaultConfig with MaxValuesPerNode := 1 })
        [Op.learn [['/','a']]]).heap.get 1).values.length ≤
      ({ DefaultConfig with MaxValuesPerNode := 1 } : Config).MaxValuesPerNode :=
  ⟨by decide, by decide,
   c3_amended { DefaultConfig with MaxValuesPerNode := 1 } (by decide) (by decide)
     [Op.learn [['/','a']]] 1⟩

/-! Well-formedness of the heap: stored ids and stored child pointers
stay below the allocation counter.  Every state reachable from
NewClassifier is well-formed. -/

def HeapWF (h : Heap) : Prop :=
  (∀ p ∈ h.store, p.1 < h.nextId) ∧
  (∀ p ∈ h.store, ∀ q ∈ p.2.children, q.2 < h.nextId)

theorem alookup_aset_self {β : Type} (k : Str) (v : β) (m : List (Str × β)) :
    alookup k (aset k v m) = some v := by
  induction m with
  | nil => simp [aset, alookup]
  | cons p rest ih =>
    by_cases hp : p.1 = k
    · simp [aset, hp, alookup]
    · simp [aset, hp, alookup, ih]

theorem alookup_aset_ne {β : Type} (k n : Str) (v : β) (m : List (Str × β))
    (hne : n ≠ k) : alookup n (aset k v m) = alookup n m := by
  induction m with
  | nil => simp [aset, alookup, Ne.symm hne]
  | cons p rest ih =>
    by_cases hp : p.1 = k
    · subst hp
      simp [aset, alookup, Ne.symm hne, ih]
    · by_cases hj : p.1 = n
      · simp only [aset, if_neg hp]
        simp [alookup, hj]
      · simp [aset, hp, alookup, hj, ih]

theorem mem_aset {β : Type} {k : Str} {v : β} {m : List (Str × β)} :
    ∀ p ∈ aset k v m, p = (k, v) ∨ p ∈ m := by
  induction m with
  | nil => simp [aset]
  | cons q rest ih =>
    intro p hp
    by_cases hq : q.1 = k
    · simp only [aset, if_pos hq] at hp
      rcases List.mem_cons.mp hp with h1 | h2
      · exact Or.inl h1
      · exact Or.inr (List.mem_cons_of_mem q h2)
    · simp only [aset, if_neg hq] at hp
      rcases List.mem_cons.mp hp with h1 | h2
      · exact Or.inr (h1 ▸ List.mem_cons_self q rest)
      · rcases ih p h2 with h3 | h4
        · exact Or.inl h3
        · exact Or.inr (List.mem_cons_of_mem q h4)

theorem mem_hset {k : Nat} {v : Segment} {m : List (Nat × Segment)} :
    ∀ p ∈ hset k v m, p = (k, v) ∨ p ∈ m := by
  induction m with
  | nil => simp [hset]
  | cons q rest ih =>
    intro p hp
    by_cases hq : q.1 = k
    · simp only [hset, if_pos hq] at hp
      rcases List.mem_cons.mp hp with h1 | h2
      · exact Or.inl h1
      · exact Or.inr (List.mem_cons_of_mem q h2)
    · simp only [hset, if_neg hq] at hp
      rcases List.mem_cons.mp hp with h1 | h2
      · exact Or.inr (h1 ▸ List.mem_cons_self q rest)
      · rcases ih p h2 with h3 | h4
        · exact Or.inl h3
        · exact Or.inr (List.mem_cons_of_mem q h4)

theorem hlookup_mem {k : Nat} {d : Segment} {m : List (Nat × Segment)}
    (h : hlookup k m = some d) : (k, d) ∈ m := by
  induction m with
  | nil => simp [hlookup] at h
  | cons p rest ih =>
    by_cases hp : p.1 = k
    · simp only [hlookup, if_pos hp] at h
      have : p = (k, d) := by
        cases p
        simp_all
      exact this ▸ List.mem_cons_self p rest
    · simp only [hlookup, if_neg hp] at h
      exact List.mem_cons_of_mem p (ih h)

theorem get_children_lt {h : Heap} (hwf : HeapWF h) (id : Nat) :
    ∀ q ∈ (h.get id).children, q.2 < h.nextId := by
  intro q hq
  cases hlk : hlookup id h.store with
  | none => simp [Heap.get, hlk, NewSegment] at hq
  | some d =>
    have hd : (h.get id) = d := by simp [Heap.get, hlk]
    exact hwf.2 (id, d) (hlookup_mem hlk) q (hd ▸ hq)

theorem get_default_of_ge {h : Heap} (hwf : HeapWF h) {id : Nat}
    (hid : h.nextId ≤ id) : h.get id = NewSegment [] := by
  cases hlk : hlookup id h.store with
  | none => simp [Heap.get, hlk]
  | some d =>
    have := hwf.1 (id, d) (hlookup_mem hlk)
    omega

theorem wf_set {h : Heap} {id : Nat} {d : Segment} (hwf : HeapWF h)
    (hid : id < h.nextId) (hd : ∀ q ∈ d.children, q.2 < h.nextId) :
    HeapWF (h.set id d) := by
  constructor
  · intro p hp
    rcases mem_hset p hp with h1 | h2
    · rw [h1]; exact hid
    · exact hwf.1 p h2
  · intro p hp q hq
    rcases mem_hset p hp with h1 | h2
    · rw [h1] at hq; exact hd q hq
    · exact hwf.2 p h2 q hq

theorem wf_alloc {h : Heap} {d : Segment} (hwf : HeapWF h)
    (hd : ∀ q ∈ d.children, q.2 < h.nextId + 1) : HeapWF (h.alloc d).1 := by
  constructor
  · intro p hp
    rcases mem_hset p hp with h1 | h2
    · rw [h1]; exact Nat.lt_succ_self _
    · exact Nat.lt_succ_of_lt (hwf.1 p h2)
  · intro p hp q hq
    rcases mem_hset p hp with h1 | h2
    · rw [h1] at hq; exact hd q hq
    · exact Nat.lt_succ_of_lt (hwf.2 p h2 q hq)

/-- The routing target of the insert walk: the wildcard child under a
collapsed node, the literal child otherwise. -/
def route (h : Heap) (id : Nat) (part : Str) : Option Nat :=
  if (h.get id).collapsed then alookup starKey (h.get id).children
  else alookup part (h.get id).children

theorem alloc_set_spec (h : Heap) (nodeId : Nat) (key : Str)
    (hwf : HeapWF h) (hid : nodeId < h.nextId)
    (hlk : alookup key (h.get nodeId).children = none) :
    HeapWF ((h.alloc (NewSegment key)).1.set nodeId
      { h.get nodeId with
          children := aset key (h.alloc (NewSegment key)).2 (h.get nodeId).children }) ∧
    ((h.alloc (NewSegment key)).1.set nodeId
      { h.get nodeId with
          children := aset key (h.alloc (NewSegment key)).2
            (h.get nodeId).children }).nextId = h.nextId + 1 ∧
    (∀ j, (((h.alloc (NewSegment key)).1.set nodeId
      { h.get nodeId with
          children := aset key (h.alloc (NewSegment key)).2
            (h.get nodeId).children }).get j).collapsed = (h.get j).collapsed) ∧
    (∀ j n c, alookup n (h.get j).children = some c →
      alookup n (((h.alloc (NewSegment key)).1.set nodeId
        { h.get nodeId with
            children := aset key (h.alloc (NewSegment key)).2
              (h.get nodeId).children }).get j).children = some c) ∧
    (((h.alloc (NewSegment key)).1.set nodeId
      { h.get nodeId with
          children := aset key (h.alloc (NewSegment key)).2
            (h.get nodeId).children }).get nodeId) =
      { h.get nodeId with
          children := aset key (h.alloc (NewSegment key)).2 (h.get nodeId).children } := by
  have hane : nodeId ≠ h.nextId := by omega
  have hget : ∀ j, ((h.alloc (NewSegment key)).1.set nodeId
      { h.get nodeId with
          children := aset key (h.alloc (NewSegment key)).2 (h.get nodeId).children }).get j =
      if j = nodeId then
        { h.get nodeId with
            children := aset key (h.alloc (NewSegment key)).2 (h.get nodeId).children }
      else if j = h.nextId then NewSegment key
      else h.get j := by
    intro j
    by_cases hj : j = nodeId
    · subst hj
      rw [Heap.get_set_self]
      simp
    · rw [Heap.get_set_ne _ _ _ _ hj, if_neg hj]
      by_cases hjn : j = h.nextId
      · subst hjn
        rw [Heap.get_alloc, Heap.get_set_self, if_pos rfl]
      · rw [Heap.get_alloc, Heap.get_set_ne _ _ _ _ hjn, if_neg hjn]
  refine ⟨?_, rfl, ?_, ?_, ?_⟩
  · refine wf_set (wf_alloc hwf (by simp [NewSegment])) (by simp [Heap.alloc]; omega) ?_
    intro q hq
    rcases mem_aset q hq with h1 | h2
    · rw [h1]; simp [Heap.alloc]
    · have := get_children_lt hwf nodeId q h2
      simp [Heap.alloc]
      omega
  · intro j
    rw [hget j]
    by_cases hj : j = nodeId
    · simp [hj]
    · by_cases hjn : j = h.nextId
      · subst hjn
        rw [if_neg hj, if_pos rfl, get_default_of_ge hwf (le_refl _)]
        rfl
      · simp [hj, hjn]
  · intro j n c hc
    rw [hget j]
    by_cases hj : j = nodeId
    · subst hj
      simp only [if_pos rfl]
      have hn : n ≠ key := by
        intro hnk
        subst hnk
        rw [hc] at hlk
        exact absurd hlk (by simp)
      exact (alookup_aset_ne key n ((h.alloc (NewSegment key)).2)
        ((h.get j).children) hn).trans hc
    · by_cases hjn : j = h.nextId
      · subst hjn
        rw [get_default_of_ge hwf (le_refl _)] at hc
        simp [NewSegment, alookup] at hc
      · simp only [if_neg hj, if_neg hjn]
        exact hc
  · rw [hget nodeId, if_pos rfl]

theorem alookup_mem {β : Type} {n : Str} {c : β} {m : List (Str × β)}
    (h : alookup n m = some c) : (n, c) ∈ m := by
  induction m with
  | nil => simp [alookup] at h
  | cons p rest ih =>
    by_cases hp : p.1 = n
    · simp only [alookup, if_pos hp] at h
      have : p = (n, c) := by
        cases p
        simp_all
      exact this ▸ List.mem_cons_self p rest
    · simp only [alookup, if_neg hp] at h
      exact List.mem_cons_of_mem p (ih h)

theorem routeChild_spec {h : Heap} {nodeId : Nat} {part : Str}
    (hwf : HeapWF h) (hid : nodeId < h.nextId) :
    HeapWF (routeChild h nodeId part).1 ∧
    h.nextId ≤ (routeChild h nodeId part).1.nextId ∧
    (routeChild h nodeId part).2 < (routeChild h nodeId part).1.nextId ∧
    (∀ j, ((routeChild h nodeId part).1.get j).collapsed = (h.get j).collapsed) ∧
    (∀ j n c, alookup n (h.get j).children = some c →
      alookup n ((routeChild h nodeId part).1.get j).children = some c) ∧
    route (routeChild h nodeId part).1 nodeId part = some (routeChild h nodeId part).2 ∧
    (∀ c0, route h nodeId part = some c0 →
      (routeChild h nodeId part).1 = h ∧ (routeChild h nodeId part).2 = c0) := by
  by_cases hcol : (h.get nodeId).collapsed
  · cases hlk : alookup starKey (h.get nodeId).children with
    | some cid =>
      have hr : routeChild h nodeId part = (h, cid) := by
        unfold routeChild
        dsimp only
        rw [if_pos hcol, hlk]
      rw [hr]
      refine ⟨hwf, le_refl _, ?_, fun j => rfl, fun j n c hc => hc, ?_, ?_⟩
      · exact get_children_lt hwf nodeId (starKey, cid) (alookup_mem hlk)
      · show route h nodeId part = some cid
        unfold route
        rw [if_pos hcol, hlk]
      · intro c0 hc0
        unfold route at hc0
        rw [if_pos hcol, hlk] at hc0
        exact ⟨rfl, Option.some.inj hc0⟩
    | none =>
      have hr : routeChild h nodeId part =
          ((h.alloc (NewSegment starKey)).1.set nodeId
            { h.get nodeId with
                children := aset starKey (h.alloc (NewSegment starKey)).2
                  (h.get nodeId).children }, (h.alloc (NewSegment starKey)).2) := by
        unfold routeChild
        dsimp only
        rw [if_pos hcol, hlk]
      obtain ⟨ha1, ha2, ha3, ha4, ha5⟩ := alloc_set_spec h nodeId starKey hwf hid hlk
      rw [hr]
      refine ⟨ha1, by rw [ha2]; omega, by rw [ha2]; simp [Heap.alloc], ha3, ha4, ?_, ?_⟩
      · show route _ nodeId part = some (h.alloc (NewSegment starKey)).2
        unfold route
        rw [ha5]
        have hcol2 : ({ h.get nodeId with
            children := aset starKey (h.alloc (NewSegment starKey)).2
              (h.get nodeId).children } : Segment).collapsed = true := hcol
        rw [if_pos hcol2]
        exact alookup_aset_self starKey _ _
      · intro c0 hc0
        unfold route at hc0
        rw [if_pos hcol, hlk] at hc0
        exact absurd hc0 (by simp)
  · cases hlk : alookup part (h.get nodeId).children with
    | some cid =>
      have hr : routeChild h nodeId part = (h, cid) := by
        unfold routeChild
        dsimp only
        rw [if_neg hcol, hlk]
      rw [hr]
      refine ⟨hwf, le_refl _, ?_, fun j => rfl, fun j n c hc => hc, ?_, ?_⟩
      · exact get_children_lt hwf nodeId (part, cid) (alookup_mem hlk)
      · show route h nodeId part = some cid
        unfold route
        rw [if_neg hcol, hlk]
      · intro c0 hc0
        unfold route at hc0
        rw [if_neg hcol, hlk] at hc0
        exact ⟨rfl, Option.some.inj hc0⟩
    | none =>
      have hr : routeChild h nodeId part =
          ((h.alloc (NewSegment part)).1.set nodeId
            { h.get nodeId with
                children := aset part (h.alloc (NewSegment part)).2
                  (h.get nodeId).children }, (h.alloc (NewSegment part)).2) := by
        unfold routeChild
        dsimp only
        rw [if_neg hcol, hlk]
      obtain ⟨ha1, ha2, ha3, ha4, ha5⟩ := alloc_set_spec h nodeId part hwf hid hlk
      rw [hr]
      refine ⟨ha1, by rw [ha2]; omega, by rw [ha2]; simp [Heap.alloc], ha3, ha4, ?_, ?_⟩
      · show route _ nodeId part = some (h.alloc (NewSegment part)).2
        unfold route
        rw [ha5]
        have hcol2 : ({ h.get nodeId with
            children := aset part (h.alloc (NewSegment part)).2
              (h.get nodeId).children } : Segment).collapsed = false := by
          simp only [Bool.not_eq_true] at hcol
          exact hcol
        rw [hcol2]
        simp only [Bool.false_eq_true, if_false]
        exact alookup_aset_self part _ _
      · intro c0 hc0
        unfold route at hc0
        rw [if_neg hcol, hlk] at hc0
        exact absurd hc0 (by simp)

theorem bumpChild_eq (cfg : Config) (h : Heap) (childId : Nat) (part : Str) :
    ∃ d : Segment, bumpChild cfg h childId part = h.set childId d ∧
      d.children = (h.get childId).children ∧
      d.collapsed = (h.get childId).collapsed := by
  unfold bumpChild
  dsimp only
  split_ifs with h1 h2
  · exact ⟨_, rfl, rfl, rfl⟩
  · exact ⟨_, rfl, rfl, rfl⟩
  · exact ⟨_, rfl, rfl, rfl⟩

theorem bumpChild_spec (cfg : Config) (h : Heap) (childId : Nat) (part : Str) :
    (bumpChild cfg h childId part).nextId = h.nextId ∧
    (∀ j, ((bumpChild cfg h childId part).get j).children = (h.get j).children) ∧
    (∀ j, ((bumpChild cfg h childId part).get j).collapsed = (h.get j).collapsed) ∧
    (childId < h.nextId → HeapWF h → HeapWF (bumpChild cfg h childId part)) := by
  obtain ⟨d, hbe, hdc, hdcol⟩ := bumpChild_eq cfg h childId part
  rw [hbe]
  refine ⟨rfl, ?_, ?_, ?_⟩
  · intro j
    by_cases hj : j = childId
    · subst hj; rw [Heap.get_set_self, hdc]
    · rw [Heap.get_set_ne _ _ _ _ hj]
  · intro j
    by_cases hj : j = childId
    · subst hj; rw [Heap.get_set_self, hdcol]
    · rw [Heap.get_set_ne _ _ _ _ hj]
  · intro hcid hwf
    refine wf_set hwf hcid ?_
    rw [hdc]
    exact get_children_lt hwf childId

theorem maybeCollapse_off (cfg : Config) (hpr : cfg.PruneHighCardinality = false)
    (h : Heap) (nodeId : Nat) : maybeCollapse cfg h nodeId = h := by
  unfold maybeCollapse
  simp [hpr]

theorem route_congr {h1 h2 : Heap} (nodeId : Nat) (part : Str)
    (hch : (h1.get nodeId).children = (h2.get nodeId).children)
    (hcol : (h1.get nodeId).collapsed = (h2.get nodeId).collapsed) :
    route h1 nodeId part = route h2 nodeId part := by
  unfold route
  rw [hch, hcol]

theorem insertPartStep_spec (cfg : Config) (hpr : cfg.PruneHighCardinality = false)
    {h : Heap} {nodeId : Nat} {part : Str} (hwf : HeapWF h) (hid : nodeId < h.nextId) :
    HeapWF (insertPartStep cfg h nodeId part).1 ∧
    h.nextId ≤ (insertPartStep cfg h nodeId part).1.nextId ∧
    (insertPartStep cfg h nodeId part).2 < (insertPartStep cfg h nodeId part).1.nextId ∧
    (∀ j, ((insertPartStep cfg h nodeId part).1.get j).collapsed = (h.get j).collapsed) ∧
    (∀ j n c, alookup n (h.get j).children = some c →
      alookup n ((insertPartStep cfg h nodeId part).1.get j).children = some c) ∧
    route (insertPartStep cfg h nodeId part).1 nodeId part =
      some (insertPartStep cfg h nodeId part).2 ∧
    (∀ c0, route h nodeId part = some c0 →
      (insertPartStep cfg h nodeId part).1.nextId = h.nextId ∧
      (insertPartStep cfg h nodeId part).2 = c0) := by
  obtain ⟨hr1, hr2, hr3, hr4, hr5, hr6, hr7⟩ := @routeChild_spec h nodeId part hwf hid
  obtain ⟨hb1, hb2, hb3, hb4⟩ :=
    bumpChild_spec cfg (routeChild h nodeId part).1 (routeChild h nodeId part).2 part
  have hstep : insertPartStep cfg h nodeId part =
      (bumpChild cfg (routeChild h nodeId part).1 (routeChild h nodeId part).2 part,
        (routeChild h nodeId part).2) := by
    unfold insertPartStep
    dsimp only
    rw [maybeCollapse_off cfg hpr]
  rw [hstep]
  refine ⟨hb4 hr3 hr1, ?_, ?_, ?_, ?_, ?_, ?_⟩
  · rw [hb1]; exact hr2
  · rw [hb1]; exact hr3
  · intro j; rw [hb3 j]; exact hr4 j
  · intro j n c hc
    rw [hb2 j]
    exact hr5 j n c hc
  · rw [route_congr nodeId part (hb2 nodeId) (hb3 nodeId)]
    exact hr6
  · intro c0 hc0
    obtain ⟨he, hcid⟩ := hr7 c0 hc0
    constructor
    · rw [hb1, he]
    · exact hcid

/-- The walked path is realized in the heap: at every step the routing
lookup finds the next node. -/
def ReadyPath (h : Heap) : Nat → List Str → Prop
  | _, [] => True
  | id, part :: rest => ∃ cid, route h id part = some cid ∧ ReadyPath h cid rest

theorem readyPath_mono {h h' : Heap}
    (hcol : ∀ j, (h'.get j).collapsed = (h.get j).collapsed)
    (hbind : ∀ j n c, alookup n (h.get j).children = some c →
      alookup n (h'.get j).children = some c) :
    ∀ (parts : List Str) (id : Nat), ReadyPath h id parts → ReadyPath h' id parts := by
  intro parts
  induction parts with
  | nil => intro id _; trivial
  | cons part rest ih =>
    intro id hrp
    obtain ⟨cid, hroute, hrest⟩ := hrp
    refine ⟨cid, ?_, ih cid hrest⟩
    unfold route at hroute ⊢
    rw [hcol id]
    by_cases hc : (h.get id).collapsed
    · rw [if_pos hc] at hroute ⊢
      exact hbind id starKey cid hroute
    · rw [if_neg hc] at hroute ⊢
      exact hbind id part cid hroute

theorem insertParts_spec (cfg : Config) (hpr : cfg.PruneHighCardinality = false) :
    ∀ (parts : List Str) (h : Heap) (id : Nat), HeapWF h → id < h.nextId →
    HeapWF (insertParts cfg h id parts).1 ∧
    h.nextId ≤ (insertParts cfg h id parts).1.nextId ∧
    (insertParts cfg h id parts).2 < (insertParts cfg h id parts).1.nextId ∧
    (∀ j, ((insertParts cfg h id parts).1.get j).collapsed = (h.get j).collapsed) ∧
    (∀ j n c, alookup n (h.get j).children = some c →
      alookup n ((insertParts cfg h id parts).1.get j).children = some c) ∧
    ReadyPath (insertParts cfg h id parts).1 id parts := by
  intro parts
  induction parts with
  | nil =>
    intro h id hwf hid
    exact ⟨hwf, le_refl _, hid, fun j => rfl, fun j n c hc => hc, trivial⟩
  | cons part rest ih =>
    intro h id hwf hid
    obtain ⟨hs1, hs2, hs3, hs4, hs5, hs6, _⟩ := insertPartStep_spec cfg hpr hwf hid
    obtain ⟨ih1, ih2, ih3, ih4, ih5, ih6⟩ :=
      ih (insertPartStep cfg h id part).1 (insertPartStep cfg h id part).2 hs1 hs3
    have hstep : insertParts cfg h id (part :: rest) =
        insertParts cfg (insertPartStep cfg h id part).1
          (insertPartStep cfg h id part).2 rest := rfl
    rw [hstep]
    refine ⟨ih1, le_trans hs2 ih2, ih3, ?_, ?_, ?_⟩
    · intro j; rw [ih4 j, hs4 j]
    · intro j n c hc
      exact ih5 j n c (hs5 j n c hc)
    · refine ⟨(insertPartStep cfg h id part).2, ?_, ih6⟩
      unfold route at hs6 ⊢
      rw [ih4 id]
      by_cases hc : ((insertPartStep cfg h id part).1.get id).collapsed
      · rw [if_pos hc] at hs6 ⊢
        exact ih5 id starKey _ hs6
      · rw [if_neg hc] at hs6 ⊢
        exact ih5 id part _ hs6

theorem insertParts_noalloc (cfg : Config) (hpr : cfg.PruneHighCardinality = false) :
    ∀ (parts : List Str) (h : Heap) (id : Nat), HeapWF h → id < h.nextId →
    ReadyPath h id parts → (insertParts cfg h id parts).1.nextId = h.nextId := by
  intro parts
  induction parts with
  | nil => intro h id _ _ _; rfl
  | cons part rest ih =>
    intro h id hwf hid hready
    obtain ⟨cid, hroute, hrest⟩ := hready
    obtain ⟨hs1, hs2, hs3, hs4, hs5, hs6, hs7⟩ := insertPartStep_spec cfg hpr hwf hid
    obtain ⟨hnx, hcid⟩ := hs7 cid hroute
    have hstep : insertParts cfg h id (part :: rest) =
        insertParts cfg (insertPartStep cfg h id part).1
          (insertPartStep cfg h id part).2 rest := rfl
    rw [hstep]
    have hready2 : ReadyPath (insertPartStep cfg h id part).1
        (insertPartStep cfg h id part).2 rest := by
      rw [hcid]
      exact readyPath_mono hs4 hs5 rest cid hrest
    rw [ih (insertPartStep cfg h id part).1 (insertPartStep cfg h id part).2 hs1 hs3 hready2]
    exact hnx

theorem set_isEnd_spec (h : Heap) (nid : Nat) :
    (h.set nid { h.get nid with isEnd := true }).nextId = h.nextId ∧
    (∀ j, ((h.set nid { h.get nid with isEnd := true }).get j).children =
      (h.get j).children) ∧
    (∀ j, ((h.set nid { h.get nid with isEnd := true }).get j).collapsed =
      (h.get j).collapsed) ∧
    (nid < h.nextId → HeapWF h → HeapWF (h.set nid { h.get nid with isEnd := true })) := by
  refine ⟨rfl, ?_, ?_, ?_⟩
  · intro j
    by_cases hj : j = nid
    · subst hj; rw [Heap.get_set_self]
    · rw [Heap.get_set_ne _ _ _ _ hj]
  · intro j
    by_cases hj : j = nid
    · subst hj; rw [Heap.get_set_self]
    · rw [Heap.get_set_ne _ _ _ _ hj]
  · intro hnid hwf
    exact wf_set hwf hnid (get_children_lt hwf nid)

set_option maxRecDepth 200000 in
/-- C4, counterexample: with pruning enabled, the first insertion of
/300/z collapses the root mid-walk and the tail node z is created under
the orphaned child, outside the owned trie; inserting the identical
path a second time allocates a fresh node and grows the reachable trie
from two nodes to three. -/
theorem c4_counterexample :
    countNodesF 10 (Learn (Learn (NewClassifier
      { CardinalityThreshold := ⟨3, 10, by decide, by decide⟩, MinSamples := 2,
        MinLearningCount := 0, MaxValuesPerNode := 2, PruneHighCardinality := true })
      ["/100".toList, "/100".toList, "/100".toList, "/100".toList, "/100".toList,
       "/100".toList, "/100".toList, "/200".toList]) ["/300/z".toList]).heap 0 = 2 ∧
    countNodesF 10 (Learn (Learn (Learn (NewClassifier
      { CardinalityThreshold := ⟨3, 10, by decide, by decide⟩, MinSamples := 2,
        MinLearningCount := 0, MaxValuesPerNode := 2, PruneHighCardinality := true })
      ["/100".toList, "/100".toList, "/100".toList, "/100".toList, "/100".toList,
       "/100".toList, "/100".toList, "/200".toList]) ["/300/z".toList])
      ["/300/z".toList]).heap 0 = 3 ∧
    (Learn (Learn (Learn (NewClassifier
      { CardinalityThreshold := ⟨3, 10, by decide, by decide⟩, MinSamples := 2,
        MinLearningCount := 0, MaxValuesPerNode := 2, PruneHighCardinality := true })
      ["/100".toList, "/100".toList, "/100".toList, "/100".toList, "/100".toList,
       "/100".toList, "/100".toList, "/200".toList]) ["/300/z".toList])
      ["/300/z".toList]).heap.nextId =
    (Learn (Learn (NewClassifier
      { CardinalityThreshold := ⟨3, 10, by decide, by decide⟩, MinSamples := 2,
        MinLearningCount := 0, MaxValuesPerNode := 2, PruneHighCardinality := true })
      ["/100".toList, "/100".toList, "/100".toList, "/100".toList, "/100".toList,
       "/100".toList, "/100".toList, "/200".toList]) ["/300/z".toList]).heap.nextId + 1 := by
  exact ⟨by decide, by decide, by decide⟩

/-- C4, amended: with the collapse optimization disabled, insertion is
structurally idempotent over every well-formed heap: re-inserting a path
just inserted allocates no segment (the heap's allocation counter does
not move, so no new node is created). -/
theorem c4_amended (cfg : Config) (hpr : cfg.PruneHighCardinality = false)
    (h : Heap) (rootId : Nat) (hwf : HeapWF h) (hroot : rootId < h.nextId) (url : Str) :
    (insertURL cfg (insertURL cfg h rootId url) rootId url).nextId =
      (insertURL cfg h rootId url).nextId := by
  by_cases hu : url = []
  · subst hu
    rfl
  · have h1eq : insertURL cfg h rootId url =
        (insertParts cfg h rootId (splitURL url)).1.set
          (insertParts cfg h rootId (splitURL url)).2
          { (insertParts cfg h rootId (splitURL url)).1.get
              (insertParts cfg h rootId (splitURL url)).2 with isEnd := true } := by
      unfold insertURL
      rw [if_neg hu]
    obtain ⟨hp1, hp2, hp3, hp4, hp5, hp6⟩ :=
      insertParts_spec cfg hpr (splitURL url) h rootId hwf hroot
    obtain ⟨he1, he2, he3, he4⟩ := set_isEnd_spec (insertParts cfg h rootId (splitURL url)).1
      (insertParts cfg h rootId (splitURL url)).2
    have hwf1 : HeapWF (insertURL cfg h rootId url) := by
      rw [h1eq]; exact he4 hp3 hp1
    have hroot1 : rootId < (insertURL cfg h rootId url).nextId := by
      rw [h1eq, he1]; omega
    have hready1 : ReadyPath (insertURL cfg h rootId url) rootId (splitURL url) := by
      rw [h1eq]
      exact readyPath_mono he3 (fun j n c hc => by rw [he2 j]; exact hc)
        (splitURL url) rootId hp6
    have h2eq : insertURL cfg (insertURL cfg h rootId url) rootId url =
        (insertParts cfg (insertURL cfg h rootId url) rootId (splitURL url)).1.set
          (insertParts cfg (insertURL cfg h rootId url) rootId (splitURL url)).2
          { (insertParts cfg (insertURL cfg h rootId url) rootId (splitURL url)).1.get
              (insertParts cfg (insertURL cfg h rootId url) rootId (splitURL url)).2 with
              isEnd := true } := by
      unfold insertURL
      rw [if_neg hu]
    rw [h2eq]
    exact insertParts_noalloc cfg hpr (splitURL url) (insertURL cfg h rootId url) rootId
      hwf1 hroot1 hready1

/-- C4, witness: the amended idempotence at a fresh default classifier
and one concrete two-segment path. -/
theorem c4_amended_witness :
    DefaultConfig.PruneHighCardinality = false ∧
    HeapWF (NewClassifier DefaultConfig).heap ∧
    (NewClassifier DefaultConfig).rootId < (NewClassifier DefaultConfig).heap.nextId ∧
    (insertURL DefaultConfig (insertURL DefaultConfig (NewClassifier DefaultConfig).heap
        (NewClassifier DefaultConfig).rootId "/a/b".toList)
      (NewClassifier DefaultConfig).rootId "/a/b".toList).nextId =
    (insertURL DefaultConfig (NewClassifier DefaultConfig).heap
      (NewClassifier DefaultConfig).rootId "/a/b".toList).nextId := by
  have hwf : HeapWF (NewClassifier DefaultConfig).heap := by
    constructor
    · intro p hp
      simp only [NewClassifier, Heap.alloc, hset] at hp
      rcases List.mem_cons.mp hp with h1 | h2
      · rw [h1]; exact Nat.lt_succ_self 0
      · exact absurd h2 (List.not_mem_nil p)
    · intro p hp q hq
      simp only [NewClassifier, Heap.alloc, hset] at hp
      rcases List.mem_cons.mp hp with h1 | h2
      · rw [h1] at hq
        simp [NewSegment] at hq
      · exact absurd h2 (List.not_mem_nil p)
  exact ⟨rfl, hwf, by decide,
    c4_amended DefaultConfig rfl (NewClassifier DefaultConfig).heap
      (NewClassifier DefaultConfig).rootId hwf (by decide) "/a/b".toList⟩

theorem foldl_heap_preserve_mem {α : Type} (P : Heap → Prop) {f : Heap → α → Heap} :
    ∀ (l : List α), (∀ (hh : Heap) (x : α), x ∈ l → P hh → P (f hh x)) →
    ∀ h : Heap, P h → P (l.foldl f h) := by
  intro l
  induction l with
  | nil => intro _ h hp; exact hp
  | cons x rest ih =>
    intro hf h hp
    exact ih (fun hh y hy hp2 => hf hh y (List.mem_cons_of_mem x hy) hp2) (f h x)
      (hf h x (List.mem_cons_self x rest) hp)

theorem merge_gspec {h : Heap} (hwf : HeapWF h) {wid : Nat} (cid : Nat)
    (hwid : wid < h.nextId) :
    HeapWF (mergeChildIntoWildcard h wid cid) ∧
    (mergeChildIntoWildcard h wid cid).nextId = h.nextId ∧
    (∀ j, ((mergeChildIntoWildcard h wid cid).get j).collapsed = (h.get j).collapsed) := by
  unfold mergeChildIntoWildcard
  dsimp only
  have hbound : ∀ g ∈ (h.get cid).children, g.2 < h.nextId := get_children_lt hwf cid
  have hP : ∀ (hh : Heap) (g : Str × Nat), g ∈ (h.get cid).children →
      (HeapWF hh ∧ hh.nextId = h.nextId ∧
        (∀ j, (hh.get j).collapsed = (h.get j).collapsed)) →
      (HeapWF (match alookup g.1 (hh.get wid).children with
        | none => hh.set wid { hh.get wid with
            children := aset g.1 g.2 (hh.get wid).children }
        | some tid => hh.set tid { hh.get tid with
            totalCount := (hh.get tid).totalCount + (hh.get g.2).totalCount,
            values := mergeValues (hh.get tid).values (hh.get g.2).values }) ∧
       (match alookup g.1 (hh.get wid).children with
        | none => hh.set wid { hh.get wid with
            children := aset g.1 g.2 (hh.get wid).children }
        | some tid => hh.set tid { hh.get tid with
            totalCount := (hh.get tid).totalCount + (hh.get g.2).totalCount,
            values := mergeValues (hh.get tid).values (hh.get g.2).values }).nextId
          = h.nextId ∧
       (∀ j, ((match alookup g.1 (hh.get wid).children with
        | none => hh.set wid { hh.get wid with
            children := aset g.1 g.2 (hh.get wid).children }
        | some tid => hh.set tid { hh.get tid with
            totalCount := (hh.get tid).totalCount + (hh.get g.2).totalCount,
            values := mergeValues (hh.get tid).values (hh.get g.2).values }).get j).collapsed
          = (h.get j).collapsed)) := by
    intro hh g hg ⟨hhwf, hhnx, hhcol⟩
    cases hlk : alookup g.1 (hh.get wid).children with
    | none =>
      refine ⟨?_, by simp [Heap.set, hhnx], ?_⟩
      · refine wf_set hhwf (by omega) ?_
        intro q hq
        rcases mem_aset q hq with h1 | h2
        · rw [h1]
          have := hbound g hg
          dsimp only
          omega
        · exact get_children_lt hhwf wid q h2
      · intro j
        by_cases hj : j = wid
        · subst hj
          rw [Heap.get_set_self]
          exact hhcol j
        · rw [Heap.get_set_ne _ _ _ _ hj]
          exact hhcol j
    | some tid =>
      have htid : tid < hh.nextId := get_children_lt hhwf wid (g.1, tid) (alookup_mem hlk)
      refine ⟨?_, by simp [Heap.set, hhnx], ?_⟩
      · refine wf_set hhwf htid ?_
        exact get_children_lt hhwf tid
      · intro j
        by_cases hj : j = tid
        · subst hj
          rw [Heap.get_set_self]
          exact hhcol j
        · rw [Heap.get_set_ne _ _ _ _ hj]
          exact hhcol j
  refine foldl_heap_preserve_mem _ (h.get cid).children hP _ ?_
  constructor
  · refine wf_set hwf hwid ?_
    exact get_children_lt hwf wid
  constructor
  · simp [Heap.set]
  · intro j
    by_cases hj : j = wid
    · subst hj
      rw [Heap.get_set_self]
    · rw [Heap.get_set_ne _ _ _ _ hj]

theorem collapse_gspec {h : Heap} (hwf : HeapWF h) {nodeId : Nat} (hid : nodeId < h.nextId) :
    HeapWF (collapseChildren h nodeId) ∧
    h.nextId ≤ (collapseChildren h nodeId).nextId ∧
    (∀ j, (h.get j).collapsed = true → ((collapseChildren h nodeId).get j).collapsed = true) := by
  unfold collapseChildren
  dsimp only
  split_ifs with hc
  · exact ⟨hwf, le_refl _, fun j hj => hj⟩
  · have ha1 : HeapWF (h.alloc wildcardSeg).1 :=
      wf_alloc hwf (by simp [wildcardSeg, NewSegment])
    have hanx : (h.alloc wildcardSeg).1.nextId =
        h.nextId + 1 := rfl
    have hacol : ∀ j, ((h.alloc wildcardSeg).1.get j).collapsed
        = true → (h.get j).collapsed = true ∨ j = h.nextId := by
      intro j hj
      by_cases hjn : j = h.nextId
      · exact Or.inr hjn
      · rw [Heap.get_alloc, Heap.get_set_ne _ _ _ _ hjn] at hj
        exact Or.inl hj
    have hacol2 : ∀ j, (h.get j).collapsed = true →
        ((h.alloc wildcardSeg).1.get j).collapsed = true := by
      intro j hj
      by_cases hjn : j = h.nextId
      · subst hjn
        rw [get_default_of_ge hwf (le_refl _)] at hj
        exact absurd hj (by decide)
      · rw [Heap.get_alloc, Heap.get_set_ne _ _ _ _ hjn]
        exact hj
    have hfold : HeapWF ((h.get nodeId).children.foldl
          (fun hAcc p => mergeChildIntoWildcard hAcc
            (h.alloc wildcardSeg).2 p.2)
          (h.alloc wildcardSeg).1) ∧
        ((h.get nodeId).children.foldl
          (fun hAcc p => mergeChildIntoWildcard hAcc
            (h.alloc wildcardSeg).2 p.2)
          (h.alloc wildcardSeg).1).nextId = h.nextId + 1 ∧
        (∀ j, (h.get j).collapsed = true →
          (((h.get nodeId).children.foldl
            (fun hAcc p => mergeChildIntoWildcard hAcc
              (h.alloc wildcardSeg).2 p.2)
            (h.alloc wildcardSeg).1).get j).collapsed = true) := by
      have := foldl_heap_preserve_mem (fun hh => HeapWF hh ∧ hh.nextId = h.nextId + 1 ∧
          (∀ j, (h.get j).collapsed = true → (hh.get j).collapsed = true))
        (h.get nodeId).children
        (by
          intro hh p _ ⟨hhwf, hhnx, hhcol⟩
          obtain ⟨m1, m2, m3⟩ := merge_gspec hhwf p.2
            (show (h.alloc wildcardSeg).2 < hh.nextId by
              simp [Heap.alloc]
              omega)
          refine ⟨m1, by rw [m2, hhnx], ?_⟩
          intro j hj
          rw [m3 j]
          exact hhcol j hj)
        (h.alloc wildcardSeg).1
        ⟨ha1, hanx, hacol2⟩
      exact this
    refine ⟨?_, ?_, ?_⟩
    · refine wf_set hfold.1 (by omega) ?_
      intro q hq
      rcases List.mem_cons.mp hq with h1 | h2
      · rw [h1]
        dsimp only
        rw [hfold.2.1]
        simp [Heap.alloc]
      · exact absurd h2 (List.not_mem_nil q)
    · exact le_trans (Nat.le_succ h.nextId) (le_of_eq hfold.2.1.symm)
    · intro j hj
      by_cases hjn : j = nodeId
      · subst hjn
        rw [Heap.get_set_self]
      · rw [Heap.get_set_ne _ _ _ _ hjn]
        exact hfold.2.2 j hj

theorem maybeCollapse_gspec (cfg : Config) {h : Heap} (hwf : HeapWF h) {nodeId : Nat}
    (hid : nodeId < h.nextId) :
    HeapWF (maybeCollapse cfg h nodeId) ∧
    h.nextId ≤ (maybeCollapse cfg h nodeId).nextId ∧
    (∀ j, (h.get j).collapsed = true →
      ((maybeCollapse cfg h nodeId).get j).collapsed = true) := by
  unfold maybeCollapse
  dsimp only
  split_ifs with hcnd
  · exact collapse_gspec hwf hid
  · exact ⟨hwf, le_refl _, fun j hj => hj⟩

theorem maybeCollapse_skip (cfg : Config) (h : Heap) (nodeId : Nat)
    (hcol : (h.get nodeId).collapsed = true) : maybeCollapse cfg h nodeId = h := by
  unfold maybeCollapse
  simp [hcol]

theorem insertPartStep_gspec (cfg : Config) {h : Heap} {nodeId : Nat} {part : Str}
    (hwf : HeapWF h) (hid : nodeId < h.nextId) :
    HeapWF (insertPartStep cfg h nodeId part).1 ∧
    h.nextId ≤ (insertPartStep cfg h nodeId part).1.nextId ∧
    (insertPartStep cfg h nodeId part).2 < (insertPartStep cfg h nodeId part).1.nextId ∧
    (∀ j, (h.get j).collapsed = true →
      ((insertPartStep cfg h nodeId part).1.get j).collapsed = true) := by
  obtain ⟨hr1, hr2, hr3, hr4, _, _, _⟩ := @routeChild_spec h nodeId part hwf hid
  obtain ⟨hb1, hb2, hb3, hb4⟩ :=
    bumpChild_spec cfg (routeChild h nodeId part).1 (routeChild h nodeId part).2 part
  have hbwf := hb4 hr3 hr1
  have hnid2 : nodeId < (bumpChild cfg (routeChild h nodeId part).1
      (routeChild h nodeId part).2 part).nextId := by
    rw [hb1]; omega
  obtain ⟨hm1, hm2, hm3⟩ := maybeCollapse_gspec cfg hbwf hnid2
  have hstep : insertPartStep cfg h nodeId part =
      (maybeCollapse cfg (bumpChild cfg (routeChild h nodeId part).1
        (routeChild h nodeId part).2 part) nodeId, (routeChild h nodeId part).2) := rfl
  rw [hstep]
  refine ⟨hm1, ?_, ?_, ?_⟩
  · calc h.nextId ≤ (routeChild h nodeId part).1.nextId := hr2
      _ = (bumpChild cfg (routeChild h nodeId part).1
            (routeChild h nodeId part).2 part).nextId := hb1.symm
      _ ≤ _ := hm2
  · calc (routeChild h nodeId part).2 < (routeChild h nodeId part).1.nextId := hr3
      _ = (bumpChild cfg (routeChild h nodeId part).1
            (routeChild h nodeId part).2 part).nextId := hb1.symm
      _ ≤ _ := hm2
  · intro j hj
    refine hm3 j ?_
    rw [hb3 j, hr4 j]
    exact hj

theorem insertParts_gspec (cfg : Config) : ∀ (parts : List Str) (h : Heap) (id : Nat),
    HeapWF h → id < h.nextId →
    HeapWF (insertParts cfg h id parts).1 ∧
    h.nextId ≤ (insertParts cfg h id parts).1.nextId ∧
    (insertParts cfg h id parts).2 < (insertParts cfg h id parts).1.nextId ∧
    (∀ j, (h.get j).collapsed = true →
      ((insertParts cfg h id parts).1.get j).collapsed = true) := by
  intro parts
  induction parts with
  | nil =>
    intro h id hwf hid
    exact ⟨hwf, le_refl _, hid, fun j hj => hj⟩
  | cons part rest ih =>
    intro h id hwf hid
    obtain ⟨hs1, hs2, hs3, hs4⟩ := insertPartStep_gspec cfg hwf hid
    obtain ⟨ih1, ih2, ih3, ih4⟩ :=
      ih (insertPartStep cfg h id part).1 (insertPartStep cfg h id part).2 hs1 hs3
    exact ⟨ih1, le_trans hs2 ih2, ih3, fun j hj => ih4 j (hs4 j hj)⟩

theorem insertURL_gspec (cfg : Config) (h : Heap) (rootId : Nat) (url : Str)
    (hwf : HeapWF h) (hroot : rootId < h.nextId) :
    HeapWF (insertURL cfg h rootId url) ∧
    h.nextId ≤ (insertURL cfg h rootId url).nextId ∧
    (∀ j, (h.get j).collapsed = true →
      ((insertURL cfg h rootId url).get j).collapsed = true) := by
  unfold insertURL
  split_ifs with hu
  · exact ⟨hwf, le_refl _, fun j hj => hj⟩
  · dsimp only
    obtain ⟨hp1, hp2, hp3, hp4⟩ := insertParts_gspec cfg (splitURL url) h rootId hwf hroot
    obtain ⟨he1, he2, he3, he4⟩ := set_isEnd_spec (insertParts cfg h rootId (splitURL url)).1
      (insertParts cfg h rootId (splitURL url)).2
    refine ⟨he4 hp3 hp1, ?_, ?_⟩
    · rw [he1]; exact hp2
    · intro j hj
      rw [he3 j]
      exact hp4 j hj

/-- Well-formedness of a whole classifier state. -/
def ClassifierWF (c : Classifier) : Prop := HeapWF c.heap ∧ c.rootId < c.heap.nextId

theorem gspec_Learn : ∀ (urls : List Str) (c : Classifier), ClassifierWF c →
    ClassifierWF (Learn c urls) ∧
    (∀ j, (c.heap.get j).collapsed = true → ((Learn c urls).heap.get j).collapsed = true) := by
  intro urls
  induction urls with
  | nil => intro c hcwf; exact ⟨hcwf, fun j hj => hj⟩
  | cons url rest ih =>
    intro c hcwf
    obtain ⟨hu1, hu2, hu3⟩ := insertURL_gspec c.config c.heap c.rootId url hcwf.1 hcwf.2
    have hnext : ClassifierWF
        { c with
            heap := insertURL c.config c.heap c.rootId url
            learnedCount := c.learnedCount + 1 } := by
      refine ⟨hu1, ?_⟩
      have h2 := hcwf.2
      dsimp only
      omega
    obtain ⟨hr1, hr2⟩ := ih _ hnext
    exact ⟨hr1, fun j hj => hr2 j (hu3 j hj)⟩

theorem gspec_Classify (c : Classifier) (url : Str) (hcwf : ClassifierWF c) :
    ClassifierWF (Classify c url).1 ∧
    (∀ j, (c.heap.get j).collapsed = true →
      ((Classify c url).1.heap.get j).collapsed = true) := by
  unfold Classify
  split_ifs with h1
  · exact ⟨hcwf, fun j hj => hj⟩
  · dsimp only
    obtain ⟨hu1, hu2, hu3⟩ := insertURL_gspec c.config c.heap c.rootId url hcwf.1 hcwf.2
    have hnext : ClassifierWF
        { c with
            heap := insertURL c.config c.heap c.rootId url
            learnedCount := c.learnedCount + 1 } := by
      refine ⟨hu1, ?_⟩
      have h2 := hcwf.2
      dsimp only
      omega
    split_ifs <;> exact ⟨hnext, hu3⟩

theorem gspec_runOps : ∀ (ops : List Op) (c : Classifier), ClassifierWF c →
    ClassifierWF (runOps c ops) ∧
    (∀ j, (c.heap.get j).collapsed = true →
      ((runOps c ops).heap.get j).collapsed = true) := by
  intro ops
  induction ops with
  | nil => intro c hcwf; exact ⟨hcwf, fun j hj => hj⟩
  | cons op rest ih =>
    intro c hcwf
    have hstep : ClassifierWF (applyOp c op) ∧
        (∀ j, (c.heap.get j).collapsed = true →
          ((applyOp c op).heap.get j).collapsed = true) := by
      cases op with
      | learn urls => exact gspec_Learn urls c hcwf
      | classify url => exact gspec_Classify c url hcwf
    obtain ⟨hr1, hr2⟩ := ih (applyOp c op) hstep.1
    exact ⟨hr1, fun j hj => hr2 j (hstep.2 j hj)⟩

theorem wf_NewClassifier (cfg : Config) : ClassifierWF (NewClassifier cfg) := by
  constructor
  · constructor
    · intro p hp
      simp only [NewClassifier, Heap.alloc, hset] at hp
      rcases List.mem_cons.mp hp with h1 | h2
      · rw [h1]; exact Nat.lt_succ_self 0
      · exact absurd h2 (List.not_mem_nil p)
    · intro p hp q hq
      simp only [NewClassifier, Heap.alloc, hset] at hp
      rcases List.mem_cons.mp hp with h1 | h2
      · rw [h1] at hq
        simp [NewSegment] at hq
      · exact absurd h2 (List.not_mem_nil p)
  · show (0 : Nat) < 1
    omega

/-- C5: collapse is one-way and a collapsed node routes everything
through its wildcard child.  (1) Once a node is collapsed in a reachable
classifier state, it stays collapsed after every further sequence of
operations.  (2) An insertion step through a collapsed node steps into
the wildcard child (creating it if absent) and does not retain the
literal as a child key.  (3) A classification step at a collapsed
position emits a typed placeholder and advances through the wildcard
child when it exists. -/
theorem c5_collapse_one_way :
    (∀ (cfg : Config) (ops1 ops2 : List Op) (id : Nat),
      ((runOps (NewClassifier cfg) ops1).heap.get id).collapsed = true →
      ((runOps (runOps (NewClassifier cfg) ops1) ops2).heap.get id).collapsed = true) ∧
    (∀ (cfg : Config) (h : Heap) (id : Nat) (part : Str),
      (h.get id).collapsed = true → part ≠ starKey →
      alookup part (h.get id).children = none →
      alookup starKey (((insertPartStep cfg h id part).1).get id).children =
        some (insertPartStep cfg h id part).2 ∧
      alookup part (((insertPartStep cfg h id part).1).get id).children = none) ∧
    (∀ (cfg : Config) (h : Heap) (node : NodeView) (part : Str) (rest : List Str),
      collapsedV h node = true →
      classifyLoop cfg h node (part :: rest) =
        braced (classifyParameterType part) ::
          classifyLoop cfg h
            (match alookup starKey (childrenV h node) with
             | some w => w
             | none => node) rest) := by
  refine ⟨?_, ?_, ?_⟩
  · intro cfg ops1 ops2 id hcol
    exact (gspec_runOps ops2 (runOps (NewClassifier cfg) ops1)
      (gspec_runOps ops1 (NewClassifier cfg) (wf_NewClassifier cfg)).1).2 id hcol
  · intro cfg h id part hcol hne hpart
    obtain ⟨hb1, hb2, hb3, _⟩ :=
      bumpChild_spec cfg (routeChild h id part).1 (routeChild h id part).2 part
    have hbcol : ((bumpChild cfg (routeChild h id part).1
        (routeChild h id part).2 part).get id).collapsed = true := by
      rw [hb3 id]
      cases hlk : alookup starKey (h.get id).children with
      | some cid =>
        have hr : routeChild h id part = (h, cid) := by
          unfold routeChild
          dsimp only
          rw [if_pos hcol, hlk]
        rw [hr]
        exact hcol
      | none =>
        have hr : routeChild h id part =
            ((h.alloc (NewSegment starKey)).1.set id
              { h.get id with
                  children := aset starKey (h.alloc (NewSegment starKey)).2
                    (h.get id).children }, (h.alloc (NewSegment starKey)).2) := by
          unfold routeChild
          dsimp only
          rw [if_pos hcol, hlk]
        rw [hr]
        dsimp only
        rw [Heap.get_set_self]
        exact hcol
    have hstep : insertPartStep cfg h id part =
        (maybeCollapse cfg (bumpChild cfg (routeChild h id part).1
          (routeChild h id part).2 part) id, (routeChild h id part).2) := rfl
    rw [hstep]
    dsimp only
    rw [maybeCollapse_skip cfg _ id hbcol, hb2 id]
    cases hlk : alookup starKey (h.get id).children with
    | some cid =>
      have hr : routeChild h id part = (h, cid) := by
        unfold routeChild
        dsimp only
        rw [if_pos hcol, hlk]
      rw [hr]
      exact ⟨hlk, hpart⟩
    | none =>
      have hr : routeChild h id part =
          ((h.alloc (NewSegment starKey)).1.set id
            { h.get id with
                children := aset starKey (h.alloc (NewSegment starKey)).2
                  (h.get id).children }, (h.alloc (NewSegment starKey)).2) := by
        unfold routeChild
        dsimp only
        rw [if_pos hcol, hlk]
      rw [hr]
      dsimp only
      rw [Heap.get_set_self]
      constructor
      · exact alookup_aset_self starKey _ _
      · exact (alookup_aset_ne starKey part _ _ hne).trans hpart
  · intro cfg h node part rest hcol
    rw [classifyLoop, if_pos hcol]

set_option maxRecDepth 400000 in
/-- C5, witness: the three conjuncts applied at the concrete collapsed
root left by the cap trace: collapse survives a further operation, an
insertion step routes into the wildcard without retaining the literal,
and a classification step placeholders the segment. -/
theorem c5_collapse_one_way_witness :
    (((runOps (NewClassifier cfgPrune) [Op.learn capTrace]).heap.get 0).collapsed = true ∧
      ((runOps (runOps (NewClassifier cfgPrune) [Op.learn capTrace])
        [Op.learn [['/','x']]]).heap.get 0).collapsed = true) ∧
    ((((Learn (NewClassifier cfgPrune) capTrace).heap.get 0).collapsed = true ∧
      (['z','z'] : Str) ≠ starKey ∧
      alookup ['z','z'] (((Learn (NewClassifier cfgPrune) capTrace).heap.get 0).children)
        = none) ∧
      alookup starKey (((insertPartStep cfgPrune
          (Learn (NewClassifier cfgPrune) capTrace).heap 0 ['z','z']).1).get 0).children =
        some (insertPartStep cfgPrune
          (Learn (NewClassifier cfgPrune) capTrace).heap 0 ['z','z']).2 ∧
      alookup ['z','z'] (((insertPartStep cfgPrune
          (Learn (NewClassifier cfgPrune) capTrace).heap 0 ['z','z']).1).get 0).children
        = none) ∧
    (collapsedV (Learn (NewClassifier cfgPrune) capTrace).heap (NodeView.ref 0) = true ∧
      classifyLoop cfgPrune (Learn (NewClassifier cfgPrune) capTrace).heap
          (NodeView.ref 0) [['z','z']] =
        braced (classifyParameterType ['z','z']) ::
          classifyLoop cfgPrune (Learn (NewClassifier cfgPrune) capTrace).heap
            (match alookup starKey (childrenV (Learn (NewClassifier cfgPrune) capTrace).heap
              (NodeView.ref 0)) with
             | some w => w
             | none => NodeView.ref 0) []) :=
  ⟨⟨by decide, c5_collapse_one_way.1 cfgPrune [Op.learn capTrace]
      [Op.learn [['/','x']]] 0 (by decide)⟩,
   ⟨⟨by decide, by decide, by decide⟩,
    c5_collapse_one_way.2.1 cfgPrune (Learn (NewClassifier cfgPrune) capTrace).heap 0
      ['z','z'] (by decide) (by decide) (by decide)⟩,
   ⟨by decide,
    c5_collapse_one_way.2.2 cfgPrune (Learn (NewClassifier cfgPrune) capTrace).heap
      (NodeView.ref 0) ['z','z'] [] (by decide)⟩⟩
